import Mathlib

/-!
# Relocation addend resolution of `upatch-build` (`elf-insn.c`)

A shallow embedding of `rela_insn` (the instruction locator) and
`rela_target_offset` (the architecture addend resolver) of
`upatch/upatch-build/elf-insn.c`, and theorems about them.

Conventions of the embedding:

* `unsigned long` values are natural numbers, every addition reduced
  modulo `2 ^ 64`;
* `long` values are integers, every result reduced to the two's
  complement range by `toLong`;
* `ERROR(...)` ends the run: the functions return `Except Error _`;
* the scan loop of `rela_insn` is bounded by an explicit `fuel` (number of
  decode steps allowed); `none` means the fuel ran out before the loop ended.
-/

namespace Upatch

/-! ## Machine integers -/

/-- The modulus of `unsigned long` arithmetic. -/
def U64 : Nat := 2 ^ 64

/-- Conversion to `long`: two's complement reduction of an integer to
`[-2^63, 2^63)`. -/
def toLong (x : Int) : Int := (x + 2 ^ 63) % 2 ^ 64 - 2 ^ 63

/-! ## Data model -/

/-- Modelled from the spec: `ERROR` (a macro of `log.h`, which is not part of
the sources at hand) is the abrupt-termination error-reporting macro: it
reports its message and ends the run, nothing after it is executed. A run that
ends so is the value `Except.error e`, with one constructor of `Error` per call
site of `elf-insn.c`, carrying the arguments of its format string. -/
inductive Error where
  /-- Raised by `ERROR("bad section size")` (line 38). -/
  | BadSectionSize
  /-- Raised by `ERROR("can't decode instruction in section %s at offset 0x%lx", sec->name, insn_addr)` (line 45). -/
  | UndecodableInstruction (name : String) (insn_addr : Nat)
  /-- Raised by `ERROR("can't find instruction for rela at %s+0x%x", sec->name, rela->offset)` (line 52). -/
  | RelocationNotFound (name : String) (offset : Nat)
  /-- Raised by `ERROR("unable to handle rela type %d \n", rela->type)` (line 76). -/
  | UnsupportedRelocationType (type : Nat)
  /-- Raised by `ERROR("unsupported arch \n")` (line 80). -/
  | UnsupportedArchitecture
  deriving DecidableEq, Repr

/-- The fields of `struct insn` that `elf-insn.c` reads: the address the
instruction was decoded at, its length and the address of the byte after it. -/
structure insn where
  kaddr : Nat
  length : Nat
  next_byte : Nat
  deriving DecidableEq, Repr

/-- The fields of `struct section` that `elf-insn.c` reads for a base section:
`name`, `data->d_buf` (the address of the section's bytes), `sh.sh_size`, and
the outcome of `is_text_section`. -/
structure Section where
  name : String
  d_buf : Nat
  sh_size : Nat
  text : Bool
  deriving DecidableEq, Repr

/-- A relocation section: `relasec->base` is the section it relocates. -/
structure RelaSection where
  name : String
  base : Section
  deriving DecidableEq, Repr

/-- The fields of `struct rela` that `elf-insn.c` reads. -/
structure rela where
  type : Nat
  offset : Nat
  addend : Int
  deriving DecidableEq, Repr

/-- The architecture tag `uelf->arch`: `X86_64`, or any other tag. -/
inductive architecture where
  | X86_64
  | other (tag : Nat)
  deriving DecidableEq, Repr

/-- The field of `struct upatch_elf` that `elf-insn.c` reads. -/
structure upatch_elf where
  arch : architecture
  deriving DecidableEq, Repr

/-! Relocation types of the x86-64 psABI (`<elf.h>`). -/

def R_X86_64_64 : Nat := 1
def R_X86_64_PC32 : Nat := 2
def R_X86_64_PLT32 : Nat := 4
def R_X86_64_32 : Nat := 10
def R_X86_64_32S : Nat := 11

/-- Modelled from the spec: `is_text_section` (declared in `elf-common.h`,
which is not part of the sources at hand) tells whether the section is an
executable/instruction section; the answer is an attribute of the section. -/
def is_text_section (sec : Section) : Bool := sec.text

/-! ## The instruction decoder

The decoder (`insn_init`, `insn_get_length`) is an external collaborator. It
is a parameter `dec : Nat → Nat` of the embedding: `dec a` is the length it
reports for the instruction at address `a`, `0` when it cannot decode. -/

/-- Modelled from the spec: `insn_init(insn, kaddr, 1)` (in `insn.c`, not part
of the sources at hand) constructs the record afresh for one decode step at
`kaddr`: whatever the record held before is discarded, no length is known yet
and the next byte to read is the first one. -/
def insn_init (_old : insn) (kaddr : Nat) : insn :=
  { kaddr := kaddr, length := 0, next_byte := kaddr }

/-- Modelled from the spec: `insn_get_length(insn)` (in `insn.c`, not part of
the sources at hand) stores the decoded length (`0` signals failure) and the
address immediately following the instruction, `next_byte = address + length`,
a pointer, hence reduced modulo `2 ^ 64`. -/
def insn_get_length (dec : Nat → Nat) (i : insn) : insn :=
  { i with length := dec i.kaddr, next_byte := (i.kaddr + dec i.kaddr) % U64 }

/-! ## `rela_insn` -/

/-- The `for` loop of `rela_insn` (lines 41-53), `fuel` bounding the number of
decode steps. `end_addr` and `rela_addr` are the locals `end` and `rela_addr`,
`insn_addr` the loop cursor, `i` the record behind the pointer `insn`. -/
def rela_insn_loop (dec : Nat → Nat) (sec : Section) (r : rela) (end_addr rela_addr : Nat) :
    Nat → Nat → insn → Option (Except Error insn)
  | 0, insn_addr, _ =>
    if insn_addr < end_addr then none
    else some (.error (.RelocationNotFound sec.name r.offset))
  | fuel + 1, insn_addr, i =>
    if insn_addr < end_addr then
      let i1 := insn_get_length dec (insn_init i insn_addr)
      if i1.length = 0 then
        some (.error (.UndecodableInstruction sec.name insn_addr))
      else if rela_addr ≥ insn_addr ∧ rela_addr < (insn_addr + i1.length) % U64 then
        some (.ok i1)
      else
        rela_insn_loop dec sec r end_addr rela_addr fuel ((insn_addr + i1.length) % U64) i1
    else some (.error (.RelocationNotFound sec.name r.offset))

/-- The function `rela_insn` (lines 30-54). The record `i` is what the caller's
`struct insn` holds on entry; the result is what it holds on return. -/
def rela_insn (dec : Nat → Nat) (fuel : Nat) (sec : Section) (r : rela) (i : insn) :
    Option (Except Error insn) :=
  let start := sec.d_buf
  let end_addr := (start + sec.sh_size) % U64
  if end_addr ≤ start then
    some (.error .BadSectionSize)
  else
    let rela_addr := (start + r.offset) % U64
    rela_insn_loop dec sec r end_addr rela_addr fuel start i

/-! ## `rela_target_offset` -/

/-- The value of the local `add_off` of `rela_target_offset` when the `return`
of line 84 is reached (lines 58-82), or the error raised before. `garbage` is
the content of the uninitialised local `struct insn insn` of line 70. -/
def add_off (dec : Nat → Nat) (fuel : Nat) (garbage : insn)
    (uelf : upatch_elf) (relasec : RelaSection) (r : rela) : Option (Except Error Int) :=
  let sec := relasec.base
  match uelf.arch with
  | .X86_64 =>
    if !is_text_section sec ∨ r.type = R_X86_64_64 ∨ r.type = R_X86_64_32 ∨
        r.type = R_X86_64_32S then
      some (.ok 0)
    else if r.type = R_X86_64_PC32 ∨ r.type = R_X86_64_PLT32 then
      match rela_insn dec fuel sec r garbage with
      | none => none
      | some (.error e) => some (.error e)
      | some (.ok i) =>
        some (.ok (toLong (toLong (toLong (i.next_byte : Int) - toLong (sec.d_buf : Int))
          - (r.offset : Int))))
    else
      some (.error (.UnsupportedRelocationType r.type))
  | _ => some (.error .UnsupportedArchitecture)

/-- The function `rela_target_offset` (lines 56-85): `rela->addend + add_off`,
a `long`. -/
def rela_target_offset (dec : Nat → Nat) (fuel : Nat) (garbage : insn)
    (uelf : upatch_elf) (relasec : RelaSection) (r : rela) : Option (Except Error Int) :=
  match add_off dec fuel garbage uelf relasec r with
  | none => none
  | some (.error e) => some (.error e)
  | some (.ok a) => some (.ok (toLong (r.addend + a)))

/-! ## Instruction boundaries (specification side) -/

/-- The instruction boundaries of sequential decoding, as offsets from the
section start: `b 0 = 0` and `b (k+1) = b k + len (b k)`, where `len b` is the
length the decoder reports at address `start + b`. -/
def bnd (dec : Nat → Nat) (start : Nat) : Nat → Nat
  | 0 => 0
  | k + 1 => bnd dec start k + dec (start + bnd dec start k)

/-- The decoder never reports, at an address inside the section, an
instruction that runs past the end of the 64-bit address space: the pointer
`next_byte` of every decode step is a genuine address. -/
def no_wrap (dec : Nat → Nat) (sec : Section) : Prop :=
  ∀ a, sec.d_buf ≤ a → a < sec.d_buf + sec.sh_size → a + dec a < U64

/-- Every instruction reached by sequential decoding from the section start
and starting before the section end has a non-zero length. -/
def all_decodable (dec : Nat → Nat) (sec : Section) : Prop :=
  ∀ k, bnd dec sec.d_buf k < sec.sh_size → dec (sec.d_buf + bnd dec sec.d_buf k) ≠ 0

/-- The scenario decoder: a 3-byte instruction at `0x1000`, a 5-byte one at
`0x1003`, nothing decodable elsewhere. -/
def dec35 : Nat → Nat := fun a => if a = 0x1000 then 3 else if a = 0x1003 then 5 else 0

/-- The scenario section: 8 bytes of text at address `0x1000`. -/
def sec35 : Section := { name := ".text", d_buf := 0x1000, sh_size := 8, text := true }

/-! ## Outcomes relative to the section start (specification side) -/

/-- An error as seen from the section: the address of an undecodable
instruction becomes its offset from `start`; the other errors carry no
address. -/
def relative_error (start : Nat) : Error → Error
  | .UndecodableInstruction name insn_addr => .UndecodableInstruction name (insn_addr - start)
  | e => e

/-- An instruction as seen from the section: its address and the address of
its next byte become offsets from `start`. -/
def relative_insn (start : Nat) (i : insn) : insn :=
  ⟨i.kaddr - start, i.length, i.next_byte - start⟩

/-- The outcome of `rela_insn` as seen from the section. -/
def relative_outcome (start : Nat) : Option (Except Error insn) → Option (Except Error insn)
  | none => none
  | some (.error e) => some (.error (relative_error start e))
  | some (.ok i) => some (.ok (relative_insn start i))

/-- The outcome of `rela_target_offset` as seen from the section: the value is
kept, an error is made relative. -/
def relative_result (start : Nat) : Option (Except Error Int) → Option (Except Error Int)
  | none => none
  | some (.error e) => some (.error (relative_error start e))
  | some (.ok v) => some (.ok v)

/-- The scenario decoder for the same bytes placed at the address `start`. -/
def dec35_at (start : Nat) : Nat → Nat := fun a => dec35 (a - start + 0x1000)

/-! ## Arithmetic of `long` -/

theorem toLong_of_fits (x : Int) (h1 : -2 ^ 63 ≤ x) (h2 : x < 2 ^ 63) : toLong x = x := by
  unfold toLong; omega

theorem toLong_correction (a n d o : Int) :
    toLong (a + toLong (toLong (toLong n - toLong d) - o)) = toLong (a + (n - d - o)) := by
  unfold toLong; omega

/-! ## The relocation type is not read by `rela_insn` -/

theorem rela_insn_loop_offset (dec : Nat → Nat) (sec : Section) (r r2 : rela)
    (h : r.offset = r2.offset) (e ra : Nat) :
    ∀ (fuel a : Nat) (i : insn),
      rela_insn_loop dec sec r e ra fuel a i = rela_insn_loop dec sec r2 e ra fuel a i := by
  intro fuel
  induction fuel with
  | zero => intro a i; simp [rela_insn_loop, h]
  | succ n ih => intro a i; simp only [rela_insn_loop, h, ih]

theorem rela_insn_offset (dec : Nat → Nat) (fuel : Nat) (sec : Section) (r r2 : rela)
    (h : r.offset = r2.offset) (i : insn) :
    rela_insn dec fuel sec r i = rela_insn dec fuel sec r2 i := by
  simp only [rela_insn, h, rela_insn_loop_offset dec sec r r2 h]

/-! ## The scan loop, step by step -/

theorem rela_insn_loop_insn (dec : Nat → Nat) (sec : Section) (r : rela) (e ra : Nat)
    (fuel a : Nat) (i j : insn) :
    rela_insn_loop dec sec r e ra fuel a i = rela_insn_loop dec sec r e ra fuel a j := by
  cases fuel <;> rfl

theorem rela_insn_loop_end (dec : Nat → Nat) (sec : Section) (r : rela) (e ra : Nat)
    (fuel a : Nat) (i : insn) (h : ¬ a < e) :
    rela_insn_loop dec sec r e ra fuel a i
      = some (.error (.RelocationNotFound sec.name r.offset)) := by
  cases fuel <;> simp [rela_insn_loop, h]

theorem rela_insn_loop_step (dec : Nat → Nat) (sec : Section) (r : rela) (e ra : Nat)
    (fuel a : Nat) (i : insn) (h : a < e) (hw : a + dec a < U64) :
    rela_insn_loop dec sec r e ra (fuel + 1) a i
      = if dec a = 0 then some (.error (.UndecodableInstruction sec.name a))
        else if a ≤ ra ∧ ra < a + dec a then some (.ok ⟨a, dec a, a + dec a⟩)
        else rela_insn_loop dec sec r e ra fuel (a + dec a) i := by
  rw [rela_insn_loop]
  simp only [h, if_true, insn_init, insn_get_length, Nat.mod_eq_of_lt hw, ge_iff_le]
  by_cases h0 : dec a = 0
  · simp [h0]
  · simp only [h0, if_false]
    by_cases hc : a ≤ ra ∧ ra < a + dec a
    · simp [hc]
    · simp only [hc, if_false]
      exact rela_insn_loop_insn dec sec r e ra fuel (a + dec a) _ i

theorem bnd_mono (dec : Nat → Nat) (start : Nat) (j k : Nat) (h : j ≤ k) :
    bnd dec start j ≤ bnd dec start k := by
  induction k with
  | zero =>
    have : j = 0 := by omega
    subst this; exact Nat.le_refl _
  | succ n ih =>
    rcases Nat.eq_or_lt_of_le h with h1 | h1
    · subst h1; exact Nat.le_refl _
    · have := ih (by omega)
      simp only [bnd]; omega

theorem bnd_eq_sum (dec : Nat → Nat) (start : Nat) (k : Nat) :
    bnd dec start k
      = Finset.sum (Finset.range k) (fun j => dec (start + bnd dec start j)) := by
  induction k with
  | zero => simp [bnd]
  | succ n ih => rw [Finset.sum_range_succ, ← ih]; simp [bnd]

/-- The loop passes over the first `k` instructions when each of them starts
before `e`, has a non-zero length and does not contain `ra`. -/
theorem rela_insn_loop_skip (dec : Nat → Nat) (sec : Section) (r : rela) (e ra start : Nat)
    (i : insn) (hw : ∀ a, start ≤ a → a < e → a + dec a < U64) :
    ∀ (k fuel : Nat),
      (∀ j, j < k → start + bnd dec start j < e ∧ dec (start + bnd dec start j) ≠ 0 ∧
        ¬ (start + bnd dec start j ≤ ra ∧ ra < start + bnd dec start (j + 1))) →
      rela_insn_loop dec sec r e ra (fuel + k) start i
        = rela_insn_loop dec sec r e ra fuel (start + bnd dec start k) i := by
  intro k
  induction k with
  | zero => intro fuel _; simp [bnd]
  | succ n ih =>
    intro fuel h
    have hn := h n (Nat.lt_succ_self n)
    have e1 : fuel + (n + 1) = (fuel + 1) + n := by omega
    rw [e1, ih (fuel + 1) (fun j hj => h j (Nat.lt_succ_of_lt hj))]
    rw [rela_insn_loop_step dec sec r e ra fuel _ i hn.1 (hw _ (Nat.le_add_right _ _) hn.1)]
    have hc : ¬ (start + bnd dec start n ≤ ra ∧
        ra < start + bnd dec start n + dec (start + bnd dec start n)) := by
      have := hn.2.2
      simp only [bnd] at this
      intro hx; apply this; omega
    simp only [hn.2.1, if_false, hc]
    simp only [bnd, Nat.add_assoc]

/-- What a successful run of the loop started at the boundary `k` returns. -/
theorem rela_insn_loop_sound (dec : Nat → Nat) (sec : Section) (r : rela) (e ra start : Nat)
    (hw : ∀ a, start ≤ a → a < e → a + dec a < U64) :
    ∀ (fuel k : Nat) (i res : insn),
      rela_insn_loop dec sec r e ra fuel (start + bnd dec start k) i = some (.ok res) →
      ∃ k2, k ≤ k2 ∧ start + bnd dec start k2 < e ∧ dec (start + bnd dec start k2) ≠ 0 ∧
        res = ⟨start + bnd dec start k2, dec (start + bnd dec start k2),
          start + bnd dec start (k2 + 1)⟩ ∧
        start + bnd dec start k2 ≤ ra ∧ ra < start + bnd dec start (k2 + 1) ∧
        ∀ j, k ≤ j → j < k2 → start + bnd dec start j < e ∧
          dec (start + bnd dec start j) ≠ 0 ∧
          ¬ (start + bnd dec start j ≤ ra ∧ ra < start + bnd dec start (j + 1)) := by
  intro fuel
  induction fuel with
  | zero =>
    intro k i res h
    by_cases hlt : start + bnd dec start k < e
    · simp [rela_insn_loop, hlt] at h
    · simp [rela_insn_loop, hlt] at h
  | succ n ih =>
    intro k i res h
    by_cases hlt : start + bnd dec start k < e
    · rw [rela_insn_loop_step dec sec r e ra n _ i hlt (hw _ (Nat.le_add_right _ _) hlt)] at h
      by_cases h0 : dec (start + bnd dec start k) = 0
      · simp [h0] at h
      · simp only [h0, if_false] at h
        by_cases hc : start + bnd dec start k ≤ ra ∧
            ra < start + bnd dec start k + dec (start + bnd dec start k)
        · simp only [hc, and_self, if_true, Option.some.injEq, Except.ok.injEq] at h
          refine ⟨k, Nat.le_refl _, hlt, h0, ?_, hc.1, ?_, ?_⟩
          · rw [← h]; simp only [bnd, Nat.add_assoc]
          · simp only [bnd]; omega
          · intro j h1 h2; omega
        · simp only [hc, if_false] at h
          have e1 : start + bnd dec start k + dec (start + bnd dec start k)
              = start + bnd dec start (k + 1) := by simp only [bnd, Nat.add_assoc]
          rw [e1] at h
          obtain ⟨k2, hk, h1, h2, h3, h4, h5, h6⟩ := ih (k + 1) i res h
          refine ⟨k2, by omega, h1, h2, h3, h4, h5, ?_⟩
          intro j hj1 hj2
          rcases Nat.eq_or_lt_of_le hj1 with hj | hj
          · subst hj
            refine ⟨hlt, h0, ?_⟩
            intro hx; apply hc; rw [e1]; exact hx
          · exact h6 j hj hj2
    · rw [rela_insn_loop_end dec sec r e ra (n + 1) _ i hlt] at h
      cases h

/-- The loop raises no "bad section size". -/
theorem rela_insn_loop_ne_bad (dec : Nat → Nat) (sec : Section) (r : rela) (e ra : Nat) :
    ∀ (fuel a : Nat) (i : insn),
      rela_insn_loop dec sec r e ra fuel a i ≠ some (.error .BadSectionSize) := by
  intro fuel
  induction fuel with
  | zero => intro a i; simp only [rela_insn_loop]; split_ifs <;> simp
  | succ n ih =>
    intro a i
    simp only [rela_insn_loop]
    split_ifs
    · simp
    · simp
    · exact ih _ _
    · simp

/-- The comparison of addresses made by the loop, in terms of offsets. -/
theorem rela_addr_in_range (start off b len : Nat) (hoff : off < U64) (hw : start + b + len < U64) :
    (start + b ≤ (start + off) % U64 ∧ (start + off) % U64 < start + b + len)
      ↔ (b ≤ off ∧ off < b + len) := by
  simp only [U64] at *
  omega

/-! ## `rela_insn` in terms of offsets -/

theorem rela_insn_of_size (dec : Nat → Nat) (fuel : Nat) (sec : Section) (r : rela) (i : insn)
    (hbuf : sec.d_buf + sec.sh_size < U64) (hpos : 0 < sec.sh_size) :
    rela_insn dec fuel sec r i
      = rela_insn_loop dec sec r (sec.d_buf + sec.sh_size) ((sec.d_buf + r.offset) % U64)
          fuel sec.d_buf i := by
  have hn : ¬ (sec.d_buf + sec.sh_size ≤ sec.d_buf) := by omega
  simp only [rela_insn, Nat.mod_eq_of_lt hbuf, hn, if_false]

/-- After `k` instructions that start inside the section, decode and do not
contain the offset, `rela_insn` is at the boundary `k`. -/
theorem rela_insn_reach (dec : Nat → Nat) (fuel : Nat) (sec : Section) (r : rela) (i : insn)
    (hbuf : sec.d_buf + sec.sh_size < U64) (hpos : 0 < sec.sh_size)
    (hw : no_wrap dec sec) (hoff : r.offset < U64) (k : Nat)
    (hprev : ∀ j, j < k → bnd dec sec.d_buf j < sec.sh_size ∧
      dec (sec.d_buf + bnd dec sec.d_buf j) ≠ 0 ∧
      ¬ (bnd dec sec.d_buf j ≤ r.offset ∧ r.offset < bnd dec sec.d_buf (j + 1))) :
    rela_insn dec (fuel + k) sec r i
      = rela_insn_loop dec sec r (sec.d_buf + sec.sh_size) ((sec.d_buf + r.offset) % U64)
          fuel (sec.d_buf + bnd dec sec.d_buf k) i := by
  rw [rela_insn_of_size dec (fuel + k) sec r i hbuf hpos]
  apply rela_insn_loop_skip dec sec r _ _ sec.d_buf i hw k fuel
  intro j hj
  obtain ⟨h1, h2, h3⟩ := hprev j hj
  refine ⟨by omega, h2, ?_⟩
  intro hx
  apply h3
  have hw2 := hw (sec.d_buf + bnd dec sec.d_buf j) (Nat.le_add_right _ _) (by omega)
  have := (rela_addr_in_range sec.d_buf r.offset (bnd dec sec.d_buf j)
    (dec (sec.d_buf + bnd dec sec.d_buf j)) hoff hw2).1
  simp only [bnd] at hx ⊢
  exact this ⟨hx.1, by omega⟩

/-- The instructions before the one that contains the offset do not contain it. -/
theorem bnd_prev_not_in_range (dec : Nat → Nat) (start off k : Nat)
    (h : bnd dec start k ≤ off) (j : Nat) (hj : j < k) :
    ¬ (bnd dec start j ≤ off ∧ off < bnd dec start (j + 1)) := by
  have := bnd_mono dec start (j + 1) k hj
  omega

/-- Completeness, for one relocation: the offset inside instruction `k`
resolves to instruction `k`. -/
theorem rela_insn_at_boundary (dec : Nat → Nat) (fuel : Nat) (sec : Section) (r : rela)
    (i : insn) (k : Nat)
    (hbuf : sec.d_buf + sec.sh_size < U64) (hw : no_wrap dec sec) (hfuel : k < fuel)
    (hin : ∀ j, j ≤ k → bnd dec sec.d_buf j < sec.sh_size)
    (hlen : ∀ j, j ≤ k → dec (sec.d_buf + bnd dec sec.d_buf j) ≠ 0)
    (hlo : bnd dec sec.d_buf k ≤ r.offset)
    (hhi : r.offset < bnd dec sec.d_buf k + dec (sec.d_buf + bnd dec sec.d_buf k)) :
    rela_insn dec fuel sec r i
      = some (.ok ⟨sec.d_buf + bnd dec sec.d_buf k, dec (sec.d_buf + bnd dec sec.d_buf k),
          sec.d_buf + bnd dec sec.d_buf k + dec (sec.d_buf + bnd dec sec.d_buf k)⟩) := by
  have hk := hin k (Nat.le_refl k)
  have hpos : 0 < sec.sh_size := by omega
  have hwk := hw (sec.d_buf + bnd dec sec.d_buf k) (Nat.le_add_right _ _) (by omega)
  have hoff : r.offset < U64 := by omega
  obtain ⟨f, rfl⟩ : ∃ f, fuel = (f + 1) + k := ⟨fuel - k - 1, by omega⟩
  rw [rela_insn_reach dec (f + 1) sec r i hbuf hpos hw hoff k
    (fun j hj => ⟨hin j (Nat.le_of_lt hj), hlen j (Nat.le_of_lt hj),
      bnd_prev_not_in_range dec sec.d_buf r.offset k hlo j hj⟩)]
  rw [rela_insn_loop_step dec sec r _ _ f _ i (by omega) hwk]
  have hc := (rela_addr_in_range sec.d_buf r.offset (bnd dec sec.d_buf k)
    (dec (sec.d_buf + bnd dec sec.d_buf k)) hoff hwk).2 ⟨hlo, hhi⟩
  simp only [hlen k (Nat.le_refl k), if_false, hc, and_self, if_true]

/-! ## Sections in which every instruction decodes -/

theorem bnd_grow (dec : Nat → Nat) (sec : Section) (hv : all_decodable dec sec) :
    ∀ k, k ≤ bnd dec sec.d_buf k ∨ sec.sh_size ≤ bnd dec sec.d_buf k := by
  intro k
  induction k with
  | zero => left; exact Nat.zero_le _
  | succ n ih =>
    have hm := bnd_mono dec sec.d_buf n (n + 1) (Nat.le_succ n)
    by_cases hlt : bnd dec sec.d_buf n < sec.sh_size
    · have h0 := hv n hlt
      have hb : bnd dec sec.d_buf (n + 1)
          = bnd dec sec.d_buf n + dec (sec.d_buf + bnd dec sec.d_buf n) := rfl
      rcases ih with h | h
      · left; omega
      · omega
    · right; omega

theorem bnd_first_past (dec : Nat → Nat) (start size : Nat) :
    ∀ m, size ≤ bnd dec start m →
      ∃ n, n ≤ m ∧ size ≤ bnd dec start n ∧ ∀ j, j < n → bnd dec start j < size := by
  intro m
  induction m with
  | zero => intro h; exact ⟨0, Nat.le_refl _, h, fun j hj => absurd hj (Nat.not_lt_zero j)⟩
  | succ n ih =>
    intro h
    by_cases hn : size ≤ bnd dec start n
    · obtain ⟨k, h1, h2, h3⟩ := ih hn
      exact ⟨k, by omega, h2, h3⟩
    · refine ⟨n + 1, Nat.le_refl _, h, ?_⟩
      intro j hj
      have := bnd_mono dec start j n (by omega)
      omega

theorem bnd_containing (dec : Nat → Nat) (start off : Nat) :
    ∀ m, off < bnd dec start m →
      ∃ k, k < m ∧ bnd dec start k ≤ off ∧ off < bnd dec start (k + 1) := by
  intro m
  induction m with
  | zero => intro h; simp [bnd] at h
  | succ n ih =>
    intro h
    by_cases hn : off < bnd dec start n
    · obtain ⟨k, h1, h2, h3⟩ := ih hn
      exact ⟨k, by omega, h2, h3⟩
    · exact ⟨n, Nat.lt_succ_self n, by omega, h⟩

/-- The loop ends within `e - a` decode steps, by an instruction, a decoding
failure or the end of the section. -/
theorem rela_insn_loop_total (dec : Nat → Nat) (sec : Section) (r : rela) (e ra start : Nat)
    (hw : ∀ a, start ≤ a → a < e → a + dec a < U64) :
    ∀ (fuel a : Nat) (i : insn), start ≤ a → e ≤ a + fuel →
      (∃ res, rela_insn_loop dec sec r e ra fuel a i = some (.ok res))
      ∨ (∃ b, rela_insn_loop dec sec r e ra fuel a i
          = some (.error (.UndecodableInstruction sec.name b)))
      ∨ rela_insn_loop dec sec r e ra fuel a i
          = some (.error (.RelocationNotFound sec.name r.offset)) := by
  intro fuel
  induction fuel with
  | zero =>
    intro a i _ h2
    right; right
    exact rela_insn_loop_end dec sec r e ra 0 a i (by omega)
  | succ n ih =>
    intro a i h1 h2
    by_cases hlt : a < e
    · rw [rela_insn_loop_step dec sec r e ra n a i hlt (hw a h1 hlt)]
      by_cases h0 : dec a = 0
      · right; left; exact ⟨a, by simp [h0]⟩
      · by_cases hc : a ≤ ra ∧ ra < a + dec a
        · left
          exact ⟨⟨a, dec a, a + dec a⟩, by simp only [h0, if_false, hc, and_self, if_true]⟩
        · simp only [h0, if_false, hc]
          exact ih (a + dec a) i (by omega) (by omega)
    · right; right
      exact rela_insn_loop_end dec sec r e ra (n + 1) a i hlt

/-- In a section in which every instruction decodes, every offset below
`sh_size` is resolved, to the instruction whose range contains it. -/
theorem rela_insn_located (dec : Nat → Nat) (fuel : Nat) (sec : Section) (r : rela) (i : insn)
    (hbuf : sec.d_buf + sec.sh_size < U64) (hw : no_wrap dec sec)
    (hv : all_decodable dec sec) (hfuel : sec.sh_size ≤ fuel) (hoff : r.offset < sec.sh_size) :
    ∃ k, bnd dec sec.d_buf k ≤ r.offset ∧ r.offset < bnd dec sec.d_buf (k + 1) ∧
      rela_insn dec fuel sec r i
        = some (.ok ⟨sec.d_buf + bnd dec sec.d_buf k, dec (sec.d_buf + bnd dec sec.d_buf k),
            sec.d_buf + bnd dec sec.d_buf k + dec (sec.d_buf + bnd dec sec.d_buf k)⟩) := by
  have hex : r.offset < bnd dec sec.d_buf (r.offset + 1) := by
    rcases bnd_grow dec sec hv (r.offset + 1) with h | h <;> omega
  obtain ⟨k, -, h1, h2⟩ := bnd_containing dec sec.d_buf r.offset _ hex
  have hk : k ≤ bnd dec sec.d_buf k := by
    rcases bnd_grow dec sec hv k with h | h
    · exact h
    · omega
  refine ⟨k, h1, h2, ?_⟩
  apply rela_insn_at_boundary dec fuel sec r i k hbuf hw (by omega)
  · intro j hj
    have := bnd_mono dec sec.d_buf j k hj
    omega
  · intro j hj
    have := bnd_mono dec sec.d_buf j k hj
    exact hv j (by omega)
  · exact h1
  · exact h2

/-- The form of every instruction `rela_insn` returns: the instruction `k` of
sequential decoding, for the `k` whose range contains the offset. -/
theorem rela_insn_ok_form (dec : Nat → Nat) (fuel : Nat) (sec : Section) (r : rela)
    (i res : insn) (hw : no_wrap dec sec) (hoff : r.offset < U64)
    (h : rela_insn dec fuel sec r i = some (.ok res)) :
    ∃ k, res = ⟨sec.d_buf + bnd dec sec.d_buf k, dec (sec.d_buf + bnd dec sec.d_buf k),
          sec.d_buf + bnd dec sec.d_buf (k + 1)⟩
      ∧ bnd dec sec.d_buf k < sec.sh_size ∧ dec (sec.d_buf + bnd dec sec.d_buf k) ≠ 0
      ∧ bnd dec sec.d_buf k ≤ r.offset ∧ r.offset < bnd dec sec.d_buf (k + 1)
      ∧ ∀ j, j < k → bnd dec sec.d_buf j < sec.sh_size ∧
          dec (sec.d_buf + bnd dec sec.d_buf j) ≠ 0 := by
  simp only [rela_insn] at h
  by_cases hb : (sec.d_buf + sec.sh_size) % U64 ≤ sec.d_buf
  · simp [hb] at h
  · simp only [hb, if_false] at h
    have hle : (sec.d_buf + sec.sh_size) % U64 ≤ sec.d_buf + sec.sh_size := Nat.mod_le _ _
    have hw2 : ∀ a, sec.d_buf ≤ a → a < (sec.d_buf + sec.sh_size) % U64 → a + dec a < U64 :=
      fun a h1 h2 => hw a h1 (by omega)
    have h0 : rela_insn_loop dec sec r ((sec.d_buf + sec.sh_size) % U64)
        ((sec.d_buf + r.offset) % U64) fuel (sec.d_buf + bnd dec sec.d_buf 0) i
          = some (.ok res) := by
      simpa [bnd] using h
    obtain ⟨k, -, h1, h2, h3, h4, h5, h6⟩ :=
      rela_insn_loop_sound dec sec r _ _ sec.d_buf hw2 fuel 0 i res h0
    have hwk := hw2 _ (Nat.le_add_right _ _) h1
    have hb1 : bnd dec sec.d_buf (k + 1)
        = bnd dec sec.d_buf k + dec (sec.d_buf + bnd dec sec.d_buf k) := rfl
    have hra : (sec.d_buf + r.offset) % U64 = sec.d_buf + r.offset := by
      simp only [U64] at *
      omega
    rw [hra] at h4 h5
    refine ⟨k, h3, by omega, h2, by omega, by omega, ?_⟩
    intro j hj
    have := h6 j (Nat.zero_le _) hj
    exact ⟨by omega, this.2.1⟩

/-! ## The scenario section -/

theorem no_wrap_dec35 (sec : Section) (h : sec.d_buf + sec.sh_size < U64) :
    no_wrap dec35 sec := by
  intro a _ h2
  simp only [U64] at *
  simp only [dec35]
  split_ifs <;> omega

theorem bnd_dec35 : bnd dec35 0x1000 0 = 0 ∧ bnd dec35 0x1000 1 = 3 ∧ bnd dec35 0x1000 2 = 8 :=
  ⟨rfl, rfl, rfl⟩

theorem bnd_dec35_lt (k : Nat) (h : bnd dec35 0x1000 k < 8) : k = 0 ∨ k = 1 := by
  rcases k with _ | _ | k
  · left; rfl
  · right; rfl
  · have := bnd_mono dec35 0x1000 2 (k + 1 + 1) (by omega)
    have h2 : bnd dec35 0x1000 2 = 8 := rfl
    omega

theorem all_decodable_dec35 (sec : Section) (h : sec.d_buf = 0x1000) (hs : sec.sh_size ≤ 8) :
    all_decodable dec35 sec := by
  intro k hk
  rw [h] at hk ⊢
  rcases bnd_dec35_lt k (by omega) with rfl | rfl <;> decide

/-! ## Claims -/

/-- C1: on X86_64, for a text base section and a relocation of type
R_X86_64_PC32 or R_X86_64_PLT32, whenever `rela_insn` succeeds with `i`,
`rela_target_offset` returns `addend + (i.next_byte - section_start - offset)`
as a `long`: the two's complement reduction of that sum in every case, and
the sum itself whenever it fits a `long`. The two types give the same
result. -/
theorem rela_target_offset_pc_relative (dec : Nat → Nat) (fuel : Nat) (garbage : insn)
    (uelf : upatch_elf) (relasec : RelaSection) (r : rela) (i : insn)
    (harch : uelf.arch = .X86_64) (htext : is_text_section relasec.base = true)
    (htype : r.type = R_X86_64_PC32 ∨ r.type = R_X86_64_PLT32)
    (hloc : rela_insn dec fuel relasec.base r garbage = some (.ok i)) :
    rela_target_offset dec fuel garbage uelf relasec r
        = some (.ok (toLong (r.addend
            + ((i.next_byte : Int) - (relasec.base.d_buf : Int) - (r.offset : Int)))))
    ∧ (-2 ^ 63 ≤ r.addend + ((i.next_byte : Int) - (relasec.base.d_buf : Int) - (r.offset : Int)) →
        r.addend + ((i.next_byte : Int) - (relasec.base.d_buf : Int) - (r.offset : Int)) < 2 ^ 63 →
        rela_target_offset dec fuel garbage uelf relasec r
          = some (.ok (r.addend
              + ((i.next_byte : Int) - (relasec.base.d_buf : Int) - (r.offset : Int)))))
    ∧ rela_target_offset dec fuel garbage uelf relasec ⟨R_X86_64_PC32, r.offset, r.addend⟩
        = rela_target_offset dec fuel garbage uelf relasec ⟨R_X86_64_PLT32, r.offset, r.addend⟩ := by
  have key : rela_target_offset dec fuel garbage uelf relasec r
        = some (.ok (toLong (r.addend
            + ((i.next_byte : Int) - (relasec.base.d_buf : Int) - (r.offset : Int))))) := by
    rcases htype with h | h <;>
      simp [rela_target_offset, add_off, harch, htext, h, hloc, toLong_correction,
        R_X86_64_PC32, R_X86_64_PLT32, R_X86_64_64, R_X86_64_32, R_X86_64_32S]
  refine ⟨key, ?_, ?_⟩
  · intro h1 h2
    rw [key, toLong_of_fits _ h1 h2]
  · have e : rela_insn dec fuel relasec.base ⟨R_X86_64_PC32, r.offset, r.addend⟩ garbage
        = rela_insn dec fuel relasec.base ⟨R_X86_64_PLT32, r.offset, r.addend⟩ garbage :=
      rela_insn_offset dec fuel relasec.base ⟨R_X86_64_PC32, r.offset, r.addend⟩
        ⟨R_X86_64_PLT32, r.offset, r.addend⟩ rfl garbage
    simp only [R_X86_64_PC32, R_X86_64_PLT32] at e
    simp [rela_target_offset, add_off, harch, htext, e,
      R_X86_64_PC32, R_X86_64_PLT32, R_X86_64_64, R_X86_64_32, R_X86_64_32S]

/-- Scenario of C1: section at 0x1000, a 3-byte then a 5-byte instruction,
offset 4, addend -4: the located instruction ends at 0x1008, the correction is
4 and the result 0, for both relocation types. -/
theorem rela_target_offset_pc_relative_witness :
    rela_insn dec35 8 sec35 ⟨R_X86_64_PC32, 4, -4⟩ ⟨0, 0, 0⟩ = some (.ok ⟨0x1003, 5, 0x1008⟩)
    ∧ ((0x1008 : Int) - 0x1000 - 4 = 4)
    ∧ rela_target_offset dec35 8 ⟨0, 0, 0⟩ ⟨.X86_64⟩ ⟨".rela.text", sec35⟩
        ⟨R_X86_64_PC32, 4, -4⟩ = some (.ok 0)
    ∧ rela_target_offset dec35 8 ⟨0, 0, 0⟩ ⟨.X86_64⟩ ⟨".rela.text", sec35⟩
        ⟨R_X86_64_PLT32, 4, -4⟩ = some (.ok 0) :=
  ⟨rfl, by decide,
   (rela_target_offset_pc_relative dec35 8 ⟨0, 0, 0⟩ ⟨.X86_64⟩ ⟨".rela.text", sec35⟩
      ⟨R_X86_64_PC32, 4, -4⟩ ⟨0x1003, 5, 0x1008⟩ rfl rfl (Or.inl rfl) rfl).2.1
      (by decide) (by decide),
   (rela_target_offset_pc_relative dec35 8 ⟨0, 0, 0⟩ ⟨.X86_64⟩ ⟨".rela.text", sec35⟩
      ⟨R_X86_64_PLT32, 4, -4⟩ ⟨0x1003, 5, 0x1008⟩ rfl rfl (Or.inr rfl) rfl).2.1
      (by decide) (by decide)⟩

/-- C2: on X86_64, when the base section is not a text section or the type is
R_X86_64_64, R_X86_64_32 or R_X86_64_32S, `rela_target_offset` returns the
stored addend (any value of a `long`) unchanged, for every offset, decoder and
amount of fuel (none included, so the locator is not run), and the outcome is
the same for every other section name, address and size. -/
theorem rela_target_offset_absolute (dec : Nat → Nat) (fuel : Nat) (garbage : insn)
    (uelf : upatch_elf) (relasec : RelaSection) (r : rela)
    (harch : uelf.arch = .X86_64)
    (hkind : is_text_section relasec.base = false ∨ r.type = R_X86_64_64 ∨
      r.type = R_X86_64_32 ∨ r.type = R_X86_64_32S)
    (hlo : -2 ^ 63 ≤ r.addend) (hhi : r.addend < 2 ^ 63) :
    rela_target_offset dec fuel garbage uelf relasec r = some (.ok r.addend)
    ∧ rela_target_offset dec 0 garbage uelf relasec r = some (.ok r.addend)
    ∧ ∀ (dec2 : Nat → Nat) (fuel2 : Nat) (garbage2 : insn) (name2 : String)
        (d_buf2 sh_size2 offset2 : Nat),
        rela_target_offset dec2 fuel2 garbage2 uelf
            ⟨relasec.name, ⟨name2, d_buf2, sh_size2, relasec.base.text⟩⟩
            ⟨r.type, offset2, r.addend⟩
          = some (.ok r.addend) := by
  have h0 : toLong (r.addend + 0) = r.addend := by
    rw [Int.add_zero]; exact toLong_of_fits _ hlo hhi
  have hk : (!is_text_section relasec.base) = true ∨ r.type = R_X86_64_64 ∨
      r.type = R_X86_64_32 ∨ r.type = R_X86_64_32S := by
    rcases hkind with h | h
    · left; simp [h]
    · right; exact h
  have hk2 : ∀ name2 d_buf2 sh_size2,
      (!is_text_section ⟨name2, d_buf2, sh_size2, relasec.base.text⟩) = true ∨
        r.type = R_X86_64_64 ∨ r.type = R_X86_64_32 ∨ r.type = R_X86_64_32S := by
    intro name2 d_buf2 sh_size2
    rcases hkind with h | h
    · left; simpa [is_text_section] using h
    · right; exact h
  refine ⟨?_, ?_, ?_⟩
  · simp only [rela_target_offset, add_off, harch, if_pos hk, h0]
  · simp only [rela_target_offset, add_off, harch, if_pos hk, h0]
  · intro dec2 fuel2 garbage2 name2 d_buf2 sh_size2 offset2
    simp only [rela_target_offset, add_off, harch, if_pos (hk2 name2 d_buf2 sh_size2), h0]

/-- Scenario of C2: the absolute 32-bit relocation at offset 1 with addend 100,
on the section of the scenario of C1, returns 100, also with no fuel at all. -/
theorem rela_target_offset_absolute_witness :
    rela_target_offset dec35 0 ⟨0, 0, 0⟩ ⟨.X86_64⟩ ⟨".rela.text", sec35⟩
      ⟨R_X86_64_32, 1, 100⟩ = some (.ok 100) :=
  (rela_target_offset_absolute dec35 8 ⟨0, 0, 0⟩ ⟨.X86_64⟩ ⟨".rela.text", sec35⟩
    ⟨R_X86_64_32, 1, 100⟩ rfl (Or.inr (Or.inr (Or.inl rfl))) (by decide) (by decide)).2.1

/-- C5 as stated fails: on X86_64, a relocation of type 3 (none of the five
types) on a base section that is not a text section returns its addend 7; no
UnsupportedRelocationType is raised. -/
theorem unsupported_type_any_section_counterexample :
    (3 ≠ R_X86_64_64 ∧ 3 ≠ R_X86_64_32 ∧ 3 ≠ R_X86_64_32S ∧ 3 ≠ R_X86_64_PC32 ∧
      3 ≠ R_X86_64_PLT32)
    ∧ rela_target_offset dec35 8 ⟨0, 0, 0⟩ ⟨.X86_64⟩ ⟨".rela.data", ⟨".data", 0x1000, 8, false⟩⟩
        ⟨3, 1, 7⟩ = some (.ok 7)
    ∧ rela_target_offset dec35 8 ⟨0, 0, 0⟩ ⟨.X86_64⟩ ⟨".rela.data", ⟨".data", 0x1000, 8, false⟩⟩
        ⟨3, 1, 7⟩ ≠ some (.error (.UnsupportedRelocationType 3)) := by
  refine ⟨by decide, rfl, ?_⟩
  intro h
  have h2 : rela_target_offset dec35 8 ⟨0, 0, 0⟩ ⟨.X86_64⟩
      ⟨".rela.data", ⟨".data", 0x1000, 8, false⟩⟩ ⟨3, 1, 7⟩ = some (.ok 7) := rfl
  rw [h2] at h
  cases h

/-- C5, amended: on X86_64 and for a text base section, every relocation whose
type is none of R_X86_64_64, R_X86_64_32, R_X86_64_32S, R_X86_64_PC32,
R_X86_64_PLT32 makes `rela_target_offset` fail with UnsupportedRelocationType
carrying the type code, for every decoder, fuel, offset and addend; no value is
returned. -/
theorem rela_target_offset_unsupported_type (dec : Nat → Nat) (fuel : Nat) (garbage : insn)
    (uelf : upatch_elf) (relasec : RelaSection) (r : rela)
    (harch : uelf.arch = .X86_64) (htext : is_text_section relasec.base = true)
    (h64 : r.type ≠ R_X86_64_64) (h32 : r.type ≠ R_X86_64_32) (h32s : r.type ≠ R_X86_64_32S)
    (hpc : r.type ≠ R_X86_64_PC32) (hplt : r.type ≠ R_X86_64_PLT32) :
    rela_target_offset dec fuel garbage uelf relasec r
        = some (.error (.UnsupportedRelocationType r.type))
    ∧ ∀ v : Int, rela_target_offset dec fuel garbage uelf relasec r ≠ some (.ok v) := by
  have key : rela_target_offset dec fuel garbage uelf relasec r
        = some (.error (.UnsupportedRelocationType r.type)) := by
    simp [rela_target_offset, add_off, harch, htext, h64, h32, h32s, hpc, hplt]
  refine ⟨key, ?_⟩
  intro v h
  rw [key] at h
  cases h

/-- Instance of the amended C5: type 3 on the text section of the scenario. -/
theorem rela_target_offset_unsupported_type_witness :
    rela_target_offset dec35 8 ⟨0, 0, 0⟩ ⟨.X86_64⟩ ⟨".rela.text", sec35⟩ ⟨3, 1, 7⟩
      = some (.error (.UnsupportedRelocationType 3)) :=
  (rela_target_offset_unsupported_type dec35 8 ⟨0, 0, 0⟩ ⟨.X86_64⟩ ⟨".rela.text", sec35⟩
    ⟨3, 1, 7⟩ rfl rfl (by decide) (by decide) (by decide) (by decide) (by decide)).1

/-- C6: for every architecture tag other than X86_64, `rela_target_offset`
fails with UnsupportedArchitecture and returns no value, for every relocation
type, addend, offset, base section and decoder, and with no fuel at all (the
locator is not run). -/
theorem rela_target_offset_unsupported_arch (dec : Nat → Nat) (fuel : Nat) (garbage : insn)
    (uelf : upatch_elf) (relasec : RelaSection) (r : rela)
    (harch : uelf.arch ≠ .X86_64) :
    rela_target_offset dec fuel garbage uelf relasec r = some (.error .UnsupportedArchitecture)
    ∧ rela_target_offset dec 0 garbage uelf relasec r = some (.error .UnsupportedArchitecture)
    ∧ ∀ v : Int, rela_target_offset dec fuel garbage uelf relasec r ≠ some (.ok v) := by
  have key : ∀ f, rela_target_offset dec f garbage uelf relasec r
        = some (.error .UnsupportedArchitecture) := by
    intro f
    cases hA : uelf.arch with
    | X86_64 => exact absurd hA harch
    | other tag => simp [rela_target_offset, add_off, hA]
  refine ⟨key fuel, key 0, ?_⟩
  intro v h
  rw [key fuel] at h
  cases h

/-- Instance of C6: architecture tag 2, a PC-relative relocation on the text
section of the scenario. -/
theorem rela_target_offset_unsupported_arch_witness :
    rela_target_offset dec35 8 ⟨0, 0, 0⟩ ⟨.other 2⟩ ⟨".rela.text", sec35⟩
      ⟨R_X86_64_PC32, 4, -4⟩ = some (.error .UnsupportedArchitecture) :=
  (rela_target_offset_unsupported_arch dec35 8 ⟨0, 0, 0⟩ ⟨.other 2⟩ ⟨".rela.text", sec35⟩
    ⟨R_X86_64_PC32, 4, -4⟩ (by decide)).1

/-- C7: `rela_insn` fails with BadSectionSize exactly when the end of the
section computed in 64-bit unsigned arithmetic, `(start + sh_size) mod 2^64`,
is not above its start; then it does so with no fuel, whatever the decoder and
the offset are (no decoding, no other error, no instruction). This is the case
of every section with `sh_size = 0`, for which a PC-relative relocation on an
X86_64 text section makes `rela_target_offset` fail with BadSectionSize. -/
theorem rela_insn_bad_section_size (dec : Nat → Nat) (fuel : Nat) (sec : Section) (r : rela)
    (i : insn) :
    (rela_insn dec fuel sec r i = some (.error .BadSectionSize)
        ↔ (sec.d_buf + sec.sh_size) % U64 ≤ sec.d_buf)
    ∧ ((sec.d_buf + sec.sh_size) % U64 ≤ sec.d_buf →
        ∀ (dec2 : Nat → Nat) (r2 : rela) (i2 : insn),
          rela_insn dec2 0 sec r2 i2 = some (.error .BadSectionSize))
    ∧ (sec.sh_size = 0 → rela_insn dec fuel sec r i = some (.error .BadSectionSize))
    ∧ (sec.sh_size = 0 → is_text_section sec = true →
        (r.type = R_X86_64_PC32 ∨ r.type = R_X86_64_PLT32) →
        ∀ (garbage : insn) (name : String),
          rela_target_offset dec fuel garbage ⟨.X86_64⟩ ⟨name, sec⟩ r
            = some (.error .BadSectionSize)) := by
  have hz : sec.sh_size = 0 → (sec.d_buf + sec.sh_size) % U64 ≤ sec.d_buf := by
    intro h; rw [h, Nat.add_zero]; exact Nat.mod_le _ _
  have hbad : ∀ (dec2 : Nat → Nat) (f : Nat) (r2 : rela) (i2 : insn),
      (sec.d_buf + sec.sh_size) % U64 ≤ sec.d_buf →
      rela_insn dec2 f sec r2 i2 = some (.error .BadSectionSize) := by
    intro dec2 f r2 i2 h
    simp only [rela_insn, h, if_true]
  refine ⟨⟨?_, hbad dec fuel r i⟩, fun h dec2 r2 i2 => hbad dec2 0 r2 i2 h,
    fun h => hbad dec fuel r i (hz h), ?_⟩
  · intro h
    by_contra hn
    simp only [rela_insn, hn, if_false] at h
    exact rela_insn_loop_ne_bad dec sec r _ _ fuel _ i h
  · intro h htext htype garbage name
    have hb := hbad dec fuel r garbage (hz h)
    rcases htype with ht | ht <;>
      simp [rela_target_offset, add_off, htext, ht, hb,
        R_X86_64_PC32, R_X86_64_PLT32, R_X86_64_64, R_X86_64_32, R_X86_64_32S]

/-- Scenario of C7: a text section with `sh_size = 0`; and a section whose end
wraps around 2^64. -/
theorem rela_insn_bad_section_size_witness :
    rela_insn dec35 8 ⟨".text", 0x1000, 0, true⟩ ⟨R_X86_64_PC32, 4, -4⟩ ⟨0, 0, 0⟩
      = some (.error .BadSectionSize)
    ∧ rela_target_offset dec35 8 ⟨0, 0, 0⟩ ⟨.X86_64⟩ ⟨".rela.text", ⟨".text", 0x1000, 0, true⟩⟩
        ⟨R_X86_64_PC32, 4, -4⟩ = some (.error .BadSectionSize)
    ∧ rela_insn dec35 0 ⟨".text", 2 ^ 64 - 8, 16, true⟩ ⟨R_X86_64_PC32, 4, -4⟩ ⟨0, 0, 0⟩
      = some (.error .BadSectionSize) :=
  ⟨(rela_insn_bad_section_size dec35 8 ⟨".text", 0x1000, 0, true⟩ ⟨R_X86_64_PC32, 4, -4⟩
      ⟨0, 0, 0⟩).2.2.1 rfl,
   (rela_insn_bad_section_size dec35 8 ⟨".text", 0x1000, 0, true⟩ ⟨R_X86_64_PC32, 4, -4⟩
      ⟨0, 0, 0⟩).2.2.2 rfl rfl (Or.inl rfl) ⟨0, 0, 0⟩ ".rela.text",
   (rela_insn_bad_section_size dec35 8 ⟨".text", 2 ^ 64 - 8, 16, true⟩ ⟨R_X86_64_PC32, 4, -4⟩
      ⟨0, 0, 0⟩).2.1 (by decide) dec35 ⟨R_X86_64_PC32, 4, -4⟩ ⟨0, 0, 0⟩⟩

/-- C3: soundness of the instruction locator. If `rela_insn` returns the
instruction `res`, then its length is positive, `next_byte = address + length`,
the target `section_start + offset` lies in `[address, address + length)`, and
the address is the instruction boundary `k` of sequential decoding from the
section start for some `k`: the section start plus the sum of the decoded
lengths of the `k` preceding instructions, each of which starts inside the
section and has a non-zero length. (Addresses are taken not to wrap around
2^64: `no_wrap`, and the offset is below 2^64.) -/
theorem rela_insn_sound (dec : Nat → Nat) (fuel : Nat) (sec : Section) (r : rela)
    (i res : insn) (hw : no_wrap dec sec) (hoff : r.offset < U64)
    (h : rela_insn dec fuel sec r i = some (.ok res)) :
    0 < res.length ∧ res.next_byte = res.kaddr + res.length
    ∧ res.kaddr ≤ sec.d_buf + r.offset ∧ sec.d_buf + r.offset < res.kaddr + res.length
    ∧ ∃ k,
        res.kaddr = sec.d_buf
          + Finset.sum (Finset.range k) (fun j => dec (sec.d_buf + bnd dec sec.d_buf j))
        ∧ res.kaddr = sec.d_buf + bnd dec sec.d_buf k
        ∧ res.length = dec res.kaddr
        ∧ res.kaddr < sec.d_buf + sec.sh_size
        ∧ ∀ j, j < k → bnd dec sec.d_buf j < sec.sh_size ∧
            dec (sec.d_buf + bnd dec sec.d_buf j) ≠ 0 := by
  obtain ⟨k, h1, h2, h3, h4, h5, h6⟩ := rela_insn_ok_form dec fuel sec r i res hw hoff h
  have hb1 : bnd dec sec.d_buf (k + 1)
      = bnd dec sec.d_buf k + dec (sec.d_buf + bnd dec sec.d_buf k) := rfl
  subst h1
  dsimp only
  refine ⟨Nat.pos_of_ne_zero h3, by omega, by omega, by omega, k, ?_, rfl, rfl, by omega, h6⟩
  rw [← bnd_eq_sum]

/-- Instance of C3 on the scenario: the instruction returned for offset 4. -/
theorem rela_insn_sound_witness :
    rela_insn dec35 8 sec35 ⟨R_X86_64_PC32, 4, -4⟩ ⟨0, 0, 0⟩ = some (.ok ⟨0x1003, 5, 0x1008⟩)
    ∧ (0x1003 : Nat) ≤ 0x1000 + 4 ∧ 0x1000 + 4 < 0x1003 + 5 :=
  ⟨rfl,
   (rela_insn_sound dec35 8 sec35 ⟨R_X86_64_PC32, 4, -4⟩ ⟨0, 0, 0⟩ ⟨0x1003, 5, 0x1008⟩
      (no_wrap_dec35 sec35 (by decide)) (by decide) rfl).2.2.1,
   (rela_insn_sound dec35 8 sec35 ⟨R_X86_64_PC32, 4, -4⟩ ⟨0, 0, 0⟩ ⟨0x1003, 5, 0x1008⟩
      (no_wrap_dec35 sec35 (by decide)) (by decide) rfl).2.2.2.1⟩

/-- C4: completeness and boundary behaviour of the instruction locator. With
`b 0 = 0`, `b (j+1) = b j + len (b j)`: if `b 0 .. b k` are all below
`sh_size` and `len (b 0) .. len (b k)` are all non-zero, then for every offset
in `[b k, b k + len (b k))` `rela_insn` returns the instruction
`(start + b k, len (b k), start + b k + len (b k))`, given at least `k + 1`
decode steps of fuel; so do the first byte `b k` and the last byte
`b k + len (b k) - 1`, and the instruction returned is not instruction
`k + 1`. (The section and the decoded instructions are taken not to wrap
around 2^64.) -/
theorem rela_insn_complete (dec : Nat → Nat) (fuel : Nat) (sec : Section) (r : rela)
    (i : insn) (k : Nat)
    (hbuf : sec.d_buf + sec.sh_size < U64) (hw : no_wrap dec sec) (hfuel : k < fuel)
    (hin : ∀ j, j ≤ k → bnd dec sec.d_buf j < sec.sh_size)
    (hlen : ∀ j, j ≤ k → dec (sec.d_buf + bnd dec sec.d_buf j) ≠ 0)
    (hlo : bnd dec sec.d_buf k ≤ r.offset)
    (hhi : r.offset < bnd dec sec.d_buf k + dec (sec.d_buf + bnd dec sec.d_buf k)) :
    rela_insn dec fuel sec r i
      = some (.ok ⟨sec.d_buf + bnd dec sec.d_buf k, dec (sec.d_buf + bnd dec sec.d_buf k),
          sec.d_buf + bnd dec sec.d_buf k + dec (sec.d_buf + bnd dec sec.d_buf k)⟩)
    ∧ rela_insn dec fuel sec ⟨r.type, bnd dec sec.d_buf k, r.addend⟩ i
      = some (.ok ⟨sec.d_buf + bnd dec sec.d_buf k, dec (sec.d_buf + bnd dec sec.d_buf k),
          sec.d_buf + bnd dec sec.d_buf k + dec (sec.d_buf + bnd dec sec.d_buf k)⟩)
    ∧ rela_insn dec fuel sec
        ⟨r.type, bnd dec sec.d_buf k + dec (sec.d_buf + bnd dec sec.d_buf k) - 1, r.addend⟩ i
      = some (.ok ⟨sec.d_buf + bnd dec sec.d_buf k, dec (sec.d_buf + bnd dec sec.d_buf k),
          sec.d_buf + bnd dec sec.d_buf k + dec (sec.d_buf + bnd dec sec.d_buf k)⟩)
    ∧ sec.d_buf + bnd dec sec.d_buf k ≠ sec.d_buf + bnd dec sec.d_buf (k + 1) := by
  have hk := hlen k (Nat.le_refl k)
  refine ⟨rela_insn_at_boundary dec fuel sec r i k hbuf hw hfuel hin hlen hlo hhi,
    rela_insn_at_boundary dec fuel sec _ i k hbuf hw hfuel hin hlen (Nat.le_refl _) ?_,
    rela_insn_at_boundary dec fuel sec _ i k hbuf hw hfuel hin hlen ?_ ?_, ?_⟩
  · dsimp only; omega
  · dsimp only; omega
  · dsimp only; omega
  · simp only [bnd]; omega

/-- Scenario of C4: instructions `[0,3)` and `[3,8)` at 0x1000; offset 4
resolves to (address 0x1003, length 5, next_byte 0x1008). -/
theorem rela_insn_complete_witness :
    rela_insn dec35 8 sec35 ⟨R_X86_64_PC32, 4, -4⟩ ⟨0, 0, 0⟩
      = some (.ok ⟨0x1003, 5, 0x1008⟩) :=
  (rela_insn_complete dec35 8 sec35 ⟨R_X86_64_PC32, 4, -4⟩ ⟨0, 0, 0⟩ 1
    (by decide) (no_wrap_dec35 sec35 (by decide)) (by decide)
    (by intro j hj; interval_cases j <;> decide)
    (by intro j hj; interval_cases j <;> decide)
    (by decide) (by decide)).1

/-- C8: if, scanning a section from its start, the decoder reports length 0 at
the instruction boundary `b k`, which lies before the section end (so the
size is positive), and none of the `k` earlier instructions (all of non-zero
length, all starting inside the section) contains the target offset, then
`rela_insn` fails with UndecodableInstruction carrying the section name and
the address `start + b k`, and returns no instruction, given at least `k + 1`
decode steps of fuel. (Addresses are taken not to wrap around 2^64.) -/
theorem rela_insn_undecodable (dec : Nat → Nat) (fuel : Nat) (sec : Section) (r : rela)
    (i : insn) (k : Nat)
    (hbuf : sec.d_buf + sec.sh_size < U64) (hw : no_wrap dec sec) (hoff : r.offset < U64)
    (hfuel : k < fuel)
    (hprev : ∀ j, j < k → bnd dec sec.d_buf j < sec.sh_size ∧
      dec (sec.d_buf + bnd dec sec.d_buf j) ≠ 0 ∧
      ¬ (bnd dec sec.d_buf j ≤ r.offset ∧ r.offset < bnd dec sec.d_buf (j + 1)))
    (hk : bnd dec sec.d_buf k < sec.sh_size)
    (hz : dec (sec.d_buf + bnd dec sec.d_buf k) = 0) :
    rela_insn dec fuel sec r i
      = some (.error (.UndecodableInstruction sec.name (sec.d_buf + bnd dec sec.d_buf k)))
    ∧ ∀ res : insn, rela_insn dec fuel sec r i ≠ some (.ok res) := by
  have key : rela_insn dec fuel sec r i
      = some (.error (.UndecodableInstruction sec.name (sec.d_buf + bnd dec sec.d_buf k))) := by
    obtain ⟨f, rfl⟩ : ∃ f, fuel = (f + 1) + k := ⟨fuel - k - 1, by omega⟩
    rw [rela_insn_reach dec (f + 1) sec r i hbuf (by omega) hw hoff k hprev]
    rw [rela_insn_loop_step dec sec r _ _ f _ i (by omega)
      (hw _ (Nat.le_add_right _ _) (by omega))]
    simp only [hz, if_true]
  refine ⟨key, ?_⟩
  intro res h
  rw [key] at h
  cases h

/-- Instance of C8: 12 bytes at 0x1000, a 3-byte and a 5-byte instruction, then
no decodable instruction at 0x1008; offset 9. -/
theorem rela_insn_undecodable_witness :
    rela_insn dec35 12 ⟨".text", 0x1000, 12, true⟩ ⟨R_X86_64_PC32, 9, -4⟩ ⟨0, 0, 0⟩
      = some (.error (.UndecodableInstruction ".text" 0x1008)) :=
  (rela_insn_undecodable dec35 12 ⟨".text", 0x1000, 12, true⟩ ⟨R_X86_64_PC32, 9, -4⟩ ⟨0, 0, 0⟩ 2
    (by decide) (no_wrap_dec35 _ (by decide)) (by decide) (by decide)
    (by intro j hj; interval_cases j <;> decide)
    (by decide) (by decide)).1

/-- C9: `rela_insn` ends in exactly one of four ways (an instruction,
BadSectionSize, UndecodableInstruction with the section name,
RelocationNotFound with the section name and the offset), given `sh_size`
decode steps of fuel; and for a section of positive size in which every
instruction reached by sequential decoding has a non-zero length, it fails
with RelocationNotFound if and only if no decoded instruction starting before
the section end contains the target offset. (Addresses are taken not to wrap
around 2^64.) -/
theorem rela_insn_not_found (dec : Nat → Nat) (fuel : Nat) (sec : Section) (r : rela)
    (i : insn) (hw : no_wrap dec sec) (hfuel : sec.sh_size ≤ fuel) :
    ((∃ res, rela_insn dec fuel sec r i = some (.ok res))
      ∨ rela_insn dec fuel sec r i = some (.error .BadSectionSize)
      ∨ (∃ b, rela_insn dec fuel sec r i = some (.error (.UndecodableInstruction sec.name b)))
      ∨ rela_insn dec fuel sec r i = some (.error (.RelocationNotFound sec.name r.offset)))
    ∧ (∀ res, rela_insn dec fuel sec r i = some (.ok res) →
        rela_insn dec fuel sec r i ≠ some (.error .BadSectionSize)
        ∧ (∀ b, rela_insn dec fuel sec r i ≠ some (.error (.UndecodableInstruction sec.name b)))
        ∧ rela_insn dec fuel sec r i ≠ some (.error (.RelocationNotFound sec.name r.offset)))
    ∧ (rela_insn dec fuel sec r i = some (.error .BadSectionSize) →
        (∀ b, rela_insn dec fuel sec r i ≠ some (.error (.UndecodableInstruction sec.name b)))
        ∧ rela_insn dec fuel sec r i ≠ some (.error (.RelocationNotFound sec.name r.offset)))
    ∧ (∀ b, rela_insn dec fuel sec r i = some (.error (.UndecodableInstruction sec.name b)) →
        rela_insn dec fuel sec r i ≠ some (.error (.RelocationNotFound sec.name r.offset)))
    ∧ (sec.d_buf + sec.sh_size < U64 → 0 < sec.sh_size → r.offset < U64 →
        all_decodable dec sec →
        (rela_insn dec fuel sec r i = some (.error (.RelocationNotFound sec.name r.offset))
          ↔ ∀ k, bnd dec sec.d_buf k < sec.sh_size →
              ¬ (bnd dec sec.d_buf k ≤ r.offset ∧ r.offset < bnd dec sec.d_buf (k + 1)))) := by
  refine ⟨?_, ?_, ?_, ?_, ?_⟩
  · by_cases hb : (sec.d_buf + sec.sh_size) % U64 ≤ sec.d_buf
    · right; left; simp only [rela_insn, hb, if_true]
    · have hle : (sec.d_buf + sec.sh_size) % U64 ≤ sec.d_buf + sec.sh_size := Nat.mod_le _ _
      have hw2 : ∀ a, sec.d_buf ≤ a → a < (sec.d_buf + sec.sh_size) % U64 → a + dec a < U64 :=
        fun a h1 h2 => hw a h1 (by omega)
      simp only [rela_insn, hb, if_false]
      rcases rela_insn_loop_total dec sec r _ ((sec.d_buf + r.offset) % U64) sec.d_buf hw2
          fuel sec.d_buf i (Nat.le_refl _) (by omega) with h | h | h
      · left; exact h
      · right; right; left; exact h
      · right; right; right; exact h
  · intro res h
    rw [h]
    simp
  · intro h
    rw [h]
    simp
  · intro b h
    rw [h]
    simp
  · intro hbuf hpos hoff hv
    constructor
    · intro h k hk hc
      have hkk : k ≤ bnd dec sec.d_buf k := by
        rcases bnd_grow dec sec hv k with h1 | h1
        · exact h1
        · omega
      have hok := rela_insn_at_boundary dec fuel sec r i k hbuf hw (by omega)
        (fun j hj => by have := bnd_mono dec sec.d_buf j k hj; omega)
        (fun j hj => by have := bnd_mono dec sec.d_buf j k hj; exact hv j (by omega))
        hc.1 hc.2
      rw [hok] at h
      cases h
    · intro h
      have hex : sec.sh_size ≤ bnd dec sec.d_buf sec.sh_size := by
        rcases bnd_grow dec sec hv sec.sh_size with h1 | h1 <;> exact h1
      obtain ⟨n, h1, h2, h3⟩ := bnd_first_past dec sec.d_buf sec.sh_size _ hex
      obtain ⟨f, rfl⟩ : ∃ f, fuel = f + n := ⟨fuel - n, by omega⟩
      rw [rela_insn_reach dec f sec r i hbuf hpos hw hoff n
        (fun j hj => ⟨h3 j hj, hv j (h3 j hj), h j (h3 j hj)⟩)]
      exact rela_insn_loop_end dec sec r _ _ f _ i (by omega)

/-- Instance of C9 on the scenario section: offset 8 is in no instruction and
is not found; offset 4 is in the second instruction and is found. -/
theorem rela_insn_not_found_witness :
    rela_insn dec35 8 sec35 ⟨R_X86_64_PC32, 8, -4⟩ ⟨0, 0, 0⟩
      = some (.error (.RelocationNotFound ".text" 8))
    ∧ ¬ (∀ k, bnd dec35 0x1000 k < 8 →
          ¬ (bnd dec35 0x1000 k ≤ 4 ∧ 4 < bnd dec35 0x1000 (k + 1))) :=
  ⟨((rela_insn_not_found dec35 8 sec35 ⟨R_X86_64_PC32, 8, -4⟩ ⟨0, 0, 0⟩
      (no_wrap_dec35 sec35 (by decide)) (by decide)).2.2.2.2
      (by decide) (by decide) (by decide) (all_decodable_dec35 sec35 rfl (by decide))).2
      (by
        intro k hk
        rcases bnd_dec35_lt k hk with rfl | rfl <;> decide),
   fun h => by
    have h2 := ((rela_insn_not_found dec35 8 sec35 ⟨R_X86_64_PC32, 4, -4⟩ ⟨0, 0, 0⟩
      (no_wrap_dec35 sec35 (by decide)) (by decide)).2.2.2.2
      (by decide) (by decide) (by decide) (all_decodable_dec35 sec35 rfl (by decide))).2 h
    have h3 : rela_insn dec35 8 sec35 ⟨R_X86_64_PC32, 4, -4⟩ ⟨0, 0, 0⟩
        = some (.ok ⟨0x1003, 5, 0x1008⟩) := rfl
    rw [h3] at h2
    cases h2⟩

/-- C10 as stated fails: 4 bytes at 0x1000 whose second instruction, at offset
3, is 5 bytes long. The size is positive and every instruction reached by
sequential decoding has a non-zero length, yet the range returned for offset
3 is `[3, 8)`, which extends past the section end 4. -/
theorem partition_past_section_end_counterexample :
    (0 : Nat) < 4 ∧ all_decodable dec35 ⟨".text", 0x1000, 4, true⟩
    ∧ rela_insn dec35 4 ⟨".text", 0x1000, 4, true⟩ ⟨R_X86_64_PC32, 3, 0⟩ ⟨0, 0, 0⟩
        = some (.ok ⟨0x1003, 5, 0x1008⟩)
    ∧ ¬ ((0x1008 : Nat) - 0x1000 ≤ 4) :=
  ⟨by decide, all_decodable_dec35 _ rfl (by decide), rfl, by decide⟩

/-- C10, amended: for a section with `sh_size > 0` in which every instruction
reached by sequential decoding from the start has a non-zero length,
`rela_insn` succeeds for every offset in `[0, sh_size)` (given `sh_size`
decode steps of fuel), and the ranges `[address - start, next_byte - start)`
it returns over those offsets satisfy: each contains its offset and begins
inside the section (so their union covers `[0, sh_size)`); any two are
identical or disjoint; the range of offset 0 begins at 0; each range that ends
before `sh_size` is followed by a returned range beginning where it ends, and
each range beginning after 0 is preceded by a returned range ending where it
begins; and when no decoded instruction runs past the section end, no returned
range extends past it, so the union is exactly `[0, sh_size)`. (Addresses are
taken not to wrap around 2^64.) -/
theorem rela_insn_partition (dec : Nat → Nat) (fuel : Nat) (sec : Section) (i : insn)
    (hbuf : sec.d_buf + sec.sh_size < U64) (hw : no_wrap dec sec)
    (hv : all_decodable dec sec) (hpos : 0 < sec.sh_size) (hfuel : sec.sh_size ≤ fuel) :
    (∀ r : rela, r.offset < sec.sh_size →
      ∃ res, rela_insn dec fuel sec r i = some (.ok res) ∧ sec.d_buf ≤ res.kaddr ∧
        res.kaddr - sec.d_buf ≤ r.offset ∧ r.offset < res.next_byte - sec.d_buf ∧
        res.kaddr - sec.d_buf < sec.sh_size)
    ∧ (∀ (r1 r2 : rela) (res1 res2 : insn), r1.offset < sec.sh_size → r2.offset < sec.sh_size →
        rela_insn dec fuel sec r1 i = some (.ok res1) →
        rela_insn dec fuel sec r2 i = some (.ok res2) →
        res1 = res2 ∨ res1.next_byte ≤ res2.kaddr ∨ res2.next_byte ≤ res1.kaddr)
    ∧ (∀ (r : rela) (res : insn), r.offset = 0 →
        rela_insn dec fuel sec r i = some (.ok res) → res.kaddr = sec.d_buf)
    ∧ (∀ (r : rela) (res : insn), r.offset < sec.sh_size →
        rela_insn dec fuel sec r i = some (.ok res) →
        res.next_byte - sec.d_buf < sec.sh_size →
        ∃ res2, rela_insn dec fuel sec ⟨r.type, res.next_byte - sec.d_buf, r.addend⟩ i
            = some (.ok res2) ∧ res2.kaddr = res.next_byte)
    ∧ (∀ (r : rela) (res : insn), r.offset < sec.sh_size →
        rela_insn dec fuel sec r i = some (.ok res) →
        sec.d_buf < res.kaddr →
        ∃ res0, rela_insn dec fuel sec ⟨r.type, res.kaddr - sec.d_buf - 1, r.addend⟩ i
            = some (.ok res0) ∧ res0.next_byte = res.kaddr)
    ∧ ((∀ k, bnd dec sec.d_buf k < sec.sh_size → bnd dec sec.d_buf (k + 1) ≤ sec.sh_size) →
        ∀ (r : rela) (res : insn), r.offset < sec.sh_size →
          rela_insn dec fuel sec r i = some (.ok res) →
          res.next_byte - sec.d_buf ≤ sec.sh_size) := by
  have hb1 : ∀ k, bnd dec sec.d_buf (k + 1)
      = bnd dec sec.d_buf k + dec (sec.d_buf + bnd dec sec.d_buf k) := fun _ => rfl
  have hkk : ∀ k, bnd dec sec.d_buf k < sec.sh_size → k ≤ bnd dec sec.d_buf k := by
    intro k hk
    rcases bnd_grow dec sec hv k with h1 | h1
    · exact h1
    · omega
  have hat : ∀ (r : rela) (k : Nat), bnd dec sec.d_buf k < sec.sh_size →
      bnd dec sec.d_buf k ≤ r.offset → r.offset < bnd dec sec.d_buf (k + 1) →
      rela_insn dec fuel sec r i
        = some (.ok ⟨sec.d_buf + bnd dec sec.d_buf k, dec (sec.d_buf + bnd dec sec.d_buf k),
            sec.d_buf + bnd dec sec.d_buf k + dec (sec.d_buf + bnd dec sec.d_buf k)⟩) := by
    intro r k hk h1 h2
    have := hkk k hk
    exact rela_insn_at_boundary dec fuel sec r i k hbuf hw (by omega)
      (fun j hj => by have := bnd_mono dec sec.d_buf j k hj; omega)
      (fun j hj => by have := bnd_mono dec sec.d_buf j k hj; exact hv j (by omega))
      h1 h2
  have hform : ∀ (r : rela) (res : insn), r.offset < sec.sh_size →
      rela_insn dec fuel sec r i = some (.ok res) →
      ∃ k, res = ⟨sec.d_buf + bnd dec sec.d_buf k, dec (sec.d_buf + bnd dec sec.d_buf k),
          sec.d_buf + bnd dec sec.d_buf (k + 1)⟩
        ∧ bnd dec sec.d_buf k < sec.sh_size ∧ dec (sec.d_buf + bnd dec sec.d_buf k) ≠ 0
        ∧ bnd dec sec.d_buf k ≤ r.offset ∧ r.offset < bnd dec sec.d_buf (k + 1)
        ∧ ∀ j, j < k → bnd dec sec.d_buf j < sec.sh_size ∧
            dec (sec.d_buf + bnd dec sec.d_buf j) ≠ 0 :=
    fun r res hr h => rela_insn_ok_form dec fuel sec r i res hw (by omega) h
  refine ⟨?_, ?_, ?_, ?_, ?_, ?_⟩
  · intro r hr
    obtain ⟨k, h1, h2, h3⟩ := rela_insn_located dec fuel sec r i hbuf hw hv hfuel hr
    refine ⟨_, h3, ?_⟩
    dsimp only
    rw [hb1] at h2
    omega
  · intro r1 r2 res1 res2 hr1 hr2 h1 h2
    obtain ⟨k1, e1, -, a1, -, -, -⟩ := hform r1 res1 hr1 h1
    obtain ⟨k2, e2, -, a2, -, -, -⟩ := hform r2 res2 hr2 h2
    subst e1 e2
    dsimp only
    rcases Nat.lt_trichotomy k1 k2 with h | h | h
    · right; left
      have := bnd_mono dec sec.d_buf (k1 + 1) k2 h
      omega
    · left; rw [h]
    · right; right
      have := bnd_mono dec sec.d_buf (k2 + 1) k1 h
      omega
  · intro r res hr h
    have hr2 : r.offset < sec.sh_size := by omega
    obtain ⟨k, e1, -, a1, b1, -, c1⟩ := hform r res hr2 h
    subst e1
    dsimp only
    rcases k with _ | k
    · simp [bnd]
    · have := (c1 k (Nat.lt_succ_self k)).2
      have := bnd_mono dec sec.d_buf 0 k (Nat.zero_le _)
      rw [hb1] at b1
      omega
  · intro r res hr h hn
    obtain ⟨k, e1, -, -, -, -, -⟩ := hform r res hr h
    subst e1
    dsimp only at hn ⊢
    have hk1 : bnd dec sec.d_buf (k + 1) < sec.sh_size := by omega
    have hne := hv (k + 1) hk1
    refine ⟨_, hat ⟨r.type, sec.d_buf + bnd dec sec.d_buf (k + 1) - sec.d_buf, r.addend⟩ (k + 1)
      hk1 ?_ ?_, rfl⟩
    · dsimp only; omega
    · dsimp only; rw [hb1 (k + 1)]; omega
  · intro r res hr h hn
    obtain ⟨k, e1, d1, -, -, -, c1⟩ := hform r res hr h
    subst e1
    dsimp only at hn ⊢
    rcases k with _ | k
    · simp [bnd] at hn
    · have hk := c1 k (Nat.lt_succ_self k)
      refine ⟨_, hat ⟨r.type, sec.d_buf + bnd dec sec.d_buf (k + 1) - sec.d_buf - 1, r.addend⟩ k
        hk.1 ?_ ?_, ?_⟩
      · dsimp only; rw [hb1 k]; omega
      · dsimp only; omega
      · dsimp only; rw [hb1 k]; omega
  · intro htile r res hr h
    obtain ⟨k, e1, d1, -, -, -, -⟩ := hform r res hr h
    subst e1
    dsimp only
    have := htile k d1
    omega

/-- Instance of the amended C10 on the scenario section, whose two
instructions end at the section end: the range of offset 4 is `[3, 8)`. -/
theorem rela_insn_partition_witness :
    rela_insn dec35 8 sec35 ⟨R_X86_64_PC32, 4, -4⟩ ⟨0, 0, 0⟩ = some (.ok ⟨0x1003, 5, 0x1008⟩)
    ∧ (0x1008 : Nat) - 0x1000 ≤ 8 :=
  ⟨rfl,
   (rela_insn_partition dec35 8 sec35 ⟨0, 0, 0⟩ (by decide) (no_wrap_dec35 sec35 (by decide))
      (all_decodable_dec35 sec35 rfl (by decide)) (by decide) (by decide)).2.2.2.2.2
      (by intro k hk; rcases bnd_dec35_lt k hk with rfl | rfl <;> decide)
      ⟨R_X86_64_PC32, 4, -4⟩ ⟨0x1003, 5, 0x1008⟩ (by decide) rfl⟩

/-! ## Fuel -/

/-- A run that ends within `fuel` decode steps ends the same way with more. -/
theorem rela_insn_loop_fuel (dec : Nat → Nat) (sec : Section) (r : rela) (e ra : Nat) :
    ∀ (fuel m a : Nat) (i : insn) (out : Except Error insn),
      rela_insn_loop dec sec r e ra fuel a i = some out →
      rela_insn_loop dec sec r e ra (fuel + m) a i = some out := by
  intro fuel
  induction fuel with
  | zero =>
    intro m a i out h
    by_cases hlt : a < e
    · simp [rela_insn_loop, hlt] at h
    · rw [rela_insn_loop_end dec sec r e ra _ a i hlt] at h ⊢
      exact h
  | succ n ih =>
    intro m a i out h
    have e1 : n + 1 + m = (n + m) + 1 := by omega
    rw [e1]
    simp only [rela_insn_loop] at h ⊢
    split_ifs at h ⊢ with h1 h2 h3
    · exact h
    · exact h
    · exact ih m _ _ out h
    · exact h

theorem rela_insn_fuel (dec : Nat → Nat) (fuel m : Nat) (sec : Section) (r : rela) (i : insn)
    (out : Except Error insn) (h : rela_insn dec fuel sec r i = some out) :
    rela_insn dec (fuel + m) sec r i = some out := by
  simp only [rela_insn] at h ⊢
  split_ifs at h ⊢ with h1
  · exact h
  · exact rela_insn_loop_fuel dec sec r _ _ fuel m _ i out h

/-- With `sh_size` decode steps of fuel `rela_insn` ends. -/
theorem rela_insn_some (dec : Nat → Nat) (fuel : Nat) (sec : Section) (r : rela) (i : insn)
    (hw : no_wrap dec sec) (hfuel : sec.sh_size ≤ fuel) :
    ∃ out, rela_insn dec fuel sec r i = some out := by
  by_cases hb : (sec.d_buf + sec.sh_size) % U64 ≤ sec.d_buf
  · exact ⟨.error .BadSectionSize, by simp only [rela_insn, hb, if_true]⟩
  · have hle : (sec.d_buf + sec.sh_size) % U64 ≤ sec.d_buf + sec.sh_size := Nat.mod_le _ _
    have hw2 : ∀ a, sec.d_buf ≤ a → a < (sec.d_buf + sec.sh_size) % U64 → a + dec a < U64 :=
      fun a h1 h2 => hw a h1 (by omega)
    simp only [rela_insn, hb, if_false]
    rcases rela_insn_loop_total dec sec r _ ((sec.d_buf + r.offset) % U64) sec.d_buf hw2
        fuel sec.d_buf i (Nat.le_refl _) (by omega) with ⟨res, h⟩ | ⟨b, h⟩ | h
    · exact ⟨_, h⟩
    · exact ⟨_, h⟩
    · exact ⟨_, h⟩

/-! ## Claims on propagation, termination and determinism -/

/-- C11: error propagation in the resolver. On X86_64, for a text base section
and a relocation of type R_X86_64_PC32 or R_X86_64_PLT32, `rela_target_offset`
returns a value if and only if `rela_insn` succeeds on the base section and
the offset; when `rela_insn` fails with an error `e` (BadSectionSize,
UndecodableInstruction or RelocationNotFound), `rela_target_offset` fails with
the same `e` and returns no addend; and it runs out of fuel exactly when
`rela_insn` does. -/
theorem rela_target_offset_propagates (dec : Nat → Nat) (fuel : Nat) (garbage : insn)
    (uelf : upatch_elf) (relasec : RelaSection) (r : rela)
    (harch : uelf.arch = .X86_64) (htext : is_text_section relasec.base = true)
    (htype : r.type = R_X86_64_PC32 ∨ r.type = R_X86_64_PLT32) :
    ((∃ v, rela_target_offset dec fuel garbage uelf relasec r = some (.ok v))
        ↔ ∃ res, rela_insn dec fuel relasec.base r garbage = some (.ok res))
    ∧ (∀ e, rela_insn dec fuel relasec.base r garbage = some (.error e) →
        rela_target_offset dec fuel garbage uelf relasec r = some (.error e)
        ∧ ∀ v, rela_target_offset dec fuel garbage uelf relasec r ≠ some (.ok v))
    ∧ (rela_target_offset dec fuel garbage uelf relasec r = none
        ↔ rela_insn dec fuel relasec.base r garbage = none) := by
  have hn : ¬ ((!is_text_section relasec.base) = true ∨ r.type = R_X86_64_64 ∨
      r.type = R_X86_64_32 ∨ r.type = R_X86_64_32S) := by
    rcases htype with h | h <;>
      simp [htext, h, R_X86_64_PC32, R_X86_64_PLT32, R_X86_64_64, R_X86_64_32, R_X86_64_32S]
  cases hR : rela_insn dec fuel relasec.base r garbage with
  | none =>
    have key : rela_target_offset dec fuel garbage uelf relasec r = none := by
      simp only [rela_target_offset, add_off, harch, if_neg hn, if_pos htype, hR]
    rw [key]
    simp
  | some out =>
    cases out with
    | error e0 =>
      have key : rela_target_offset dec fuel garbage uelf relasec r = some (.error e0) := by
        simp only [rela_target_offset, add_off, harch, if_neg hn, if_pos htype, hR]
      rw [key]
      simp
    | ok res =>
      have key : rela_target_offset dec fuel garbage uelf relasec r
          = some (.ok (toLong (r.addend + toLong (toLong (toLong (res.next_byte : Int)
              - toLong (relasec.base.d_buf : Int)) - (r.offset : Int))))) := by
        simp only [rela_target_offset, add_off, harch, if_neg hn, if_pos htype, hR]
      rw [key]
      simp

/-- Instance of C11: the scenario with `sh_size = 0`: BadSectionSize is passed
on; and the scenario itself, in which both succeed. -/
theorem rela_target_offset_propagates_witness :
    rela_target_offset dec35 8 ⟨0, 0, 0⟩ ⟨.X86_64⟩ ⟨".rela.text", ⟨".text", 0x1000, 0, true⟩⟩
        ⟨R_X86_64_PC32, 4, -4⟩ = some (.error .BadSectionSize)
    ∧ ∃ v, rela_target_offset dec35 8 ⟨0, 0, 0⟩ ⟨.X86_64⟩ ⟨".rela.text", sec35⟩
        ⟨R_X86_64_PC32, 4, -4⟩ = some (.ok v) :=
  ⟨((rela_target_offset_propagates dec35 8 ⟨0, 0, 0⟩ ⟨.X86_64⟩
      ⟨".rela.text", ⟨".text", 0x1000, 0, true⟩⟩ ⟨R_X86_64_PC32, 4, -4⟩
      rfl rfl (Or.inl rfl)).2.1 .BadSectionSize rfl).1,
   (rela_target_offset_propagates dec35 8 ⟨0, 0, 0⟩ ⟨.X86_64⟩ ⟨".rela.text", sec35⟩
      ⟨R_X86_64_PC32, 4, -4⟩ rfl rfl (Or.inl rfl)).1.2 ⟨⟨0x1003, 5, 0x1008⟩, rfl⟩⟩

/-- C12: every call of `rela_insn` and of `rela_target_offset` ends, with a
result or an error: `sh_size` decode steps of fuel are enough, and more fuel
changes nothing. At each step of the scan loop a zero length is an immediate
error and otherwise the cursor advances by the strictly positive decoded
length. (The decoded instructions are taken not to wrap around 2^64.) -/
theorem rela_insn_terminates (dec : Nat → Nat) (fuel : Nat) (sec : Section) (r : rela)
    (i garbage : insn) (uelf : upatch_elf) (name : String)
    (hw : no_wrap dec sec) (hfuel : sec.sh_size ≤ fuel) :
    (∃ out, rela_insn dec sec.sh_size sec r i = some out
        ∧ rela_insn dec fuel sec r i = some out)
    ∧ (∃ out, rela_target_offset dec sec.sh_size garbage uelf ⟨name, sec⟩ r = some out
        ∧ rela_target_offset dec fuel garbage uelf ⟨name, sec⟩ r = some out)
    ∧ (∀ (f a e ra : Nat) (j : insn), a < e → a + dec a < U64 →
        (dec a = 0 → rela_insn_loop dec sec r e ra (f + 1) a j
            = some (.error (.UndecodableInstruction sec.name a)))
        ∧ (dec a ≠ 0 → a < a + dec a
            ∧ (rela_insn_loop dec sec r e ra (f + 1) a j = some (.ok ⟨a, dec a, a + dec a⟩)
              ∨ rela_insn_loop dec sec r e ra (f + 1) a j
                  = rela_insn_loop dec sec r e ra f (a + dec a) j))) := by
  obtain ⟨m, rfl⟩ : ∃ m, fuel = sec.sh_size + m := ⟨fuel - sec.sh_size, by omega⟩
  have hE : ∀ j, ∃ out, rela_insn dec sec.sh_size sec r j = some out
      ∧ rela_insn dec (sec.sh_size + m) sec r j = some out := by
    intro j
    obtain ⟨out, h⟩ := rela_insn_some dec sec.sh_size sec r j hw (Nat.le_refl _)
    exact ⟨out, h, rela_insn_fuel dec sec.sh_size m sec r j out h⟩
  refine ⟨hE i, ?_, ?_⟩
  · obtain ⟨out, h1, h2⟩ := hE garbage
    simp only [rela_target_offset, add_off, h1, h2]
    cases uelf.arch with
    | X86_64 =>
      dsimp only
      split_ifs
      · exact ⟨_, rfl, rfl⟩
      · cases out with
        | error e0 => exact ⟨_, rfl, rfl⟩
        | ok res => exact ⟨_, rfl, rfl⟩
      · exact ⟨_, rfl, rfl⟩
    | other tag => exact ⟨_, rfl, rfl⟩
  · intro f a e ra j hlt hwa
    rw [rela_insn_loop_step dec sec r e ra f a j hlt hwa]
    refine ⟨fun h0 => by simp [h0], fun h0 => ⟨by omega, ?_⟩⟩
    by_cases hc : a ≤ ra ∧ ra < a + dec a
    · left; simp only [h0, if_false, hc, and_self, if_true]
    · right; simp only [h0, if_false, hc]

/-- Instance of C12 on the scenario: 8 decode steps of fuel end the call. -/
theorem rela_insn_terminates_witness :
    ∃ out, rela_insn dec35 8 sec35 ⟨R_X86_64_PC32, 4, -4⟩ ⟨0, 0, 0⟩ = some out
      ∧ rela_insn dec35 100 sec35 ⟨R_X86_64_PC32, 4, -4⟩ ⟨0, 0, 0⟩ = some out :=
  (rela_insn_terminates dec35 100 sec35 ⟨R_X86_64_PC32, 4, -4⟩ ⟨0, 0, 0⟩ ⟨0, 0, 0⟩
    ⟨.X86_64⟩ ".rela.text" (no_wrap_dec35 sec35 (by decide)) (by decide)).1

/-- C15: `rela_insn` is a function of the decoder, the section and the offset
alone: two calls give the same instruction (address, length, next_byte) or the
same error, whatever the caller's instruction record holds on entry (each
decode step initialises it anew), in particular when the second call is handed
the record the first one filled; likewise for `rela_target_offset`, whose
record is an uninitialised local. -/
theorem rela_insn_deterministic (dec : Nat → Nat) (fuel : Nat) (sec : Section) (r : rela)
    (i j : insn) :
    rela_insn dec fuel sec r i = rela_insn dec fuel sec r j
    ∧ (∀ out : insn, rela_insn dec fuel sec r out = rela_insn dec fuel sec r i)
    ∧ (∀ (uelf : upatch_elf) (name : String),
        rela_target_offset dec fuel i uelf ⟨name, sec⟩ r
          = rela_target_offset dec fuel j uelf ⟨name, sec⟩ r) := by
  have h : ∀ a b : insn, rela_insn dec fuel sec r a = rela_insn dec fuel sec r b := by
    intro a b
    simp only [rela_insn]
    split_ifs
    · rfl
    · exact rela_insn_loop_insn dec sec r _ _ fuel _ a b
  refine ⟨h i j, fun out => h out i, ?_⟩
  intro uelf name
  simp only [rela_target_offset, add_off, h i j]

/-! ## Offsets outside the section -/

/-- In a section in which every instruction decodes, an offset that no
instruction starting inside the section contains is not found. -/
theorem rela_insn_none_contains (dec : Nat → Nat) (fuel : Nat) (sec : Section) (r : rela)
    (i : insn) (hbuf : sec.d_buf + sec.sh_size < U64) (hpos : 0 < sec.sh_size)
    (hw : no_wrap dec sec) (hoff : r.offset < U64) (hv : all_decodable dec sec)
    (hfuel : sec.sh_size ≤ fuel)
    (h : ∀ k, bnd dec sec.d_buf k < sec.sh_size →
      ¬ (bnd dec sec.d_buf k ≤ r.offset ∧ r.offset < bnd dec sec.d_buf (k + 1))) :
    rela_insn dec fuel sec r i = some (.error (.RelocationNotFound sec.name r.offset)) := by
  have hex : sec.sh_size ≤ bnd dec sec.d_buf sec.sh_size := by
    rcases bnd_grow dec sec hv sec.sh_size with h1 | h1 <;> exact h1
  obtain ⟨n, h1, h2, h3⟩ := bnd_first_past dec sec.d_buf sec.sh_size _ hex
  obtain ⟨f, rfl⟩ : ∃ f, fuel = f + n := ⟨fuel - n, by omega⟩
  rw [rela_insn_reach dec f sec r i hbuf hpos hw hoff n
    (fun j hj => ⟨h3 j hj, hv j (h3 j hj), h j (h3 j hj)⟩)]
  exact rela_insn_loop_end dec sec r _ _ f _ i (by omega)

/-- C13 as stated fails: 4 bytes at 0x1000 whose second instruction, at offset
3, is 5 bytes long and runs past the section end. The offset 5 is outside the
section (5 >= 4) and `rela_insn` resolves it to that instruction. -/
theorem offset_past_section_end_counterexample :
    (4 : Nat) ≤ 5
    ∧ rela_insn dec35 4 ⟨".text", 0x1000, 4, true⟩ ⟨R_X86_64_PC32, 5, 0⟩ ⟨0, 0, 0⟩
        = some (.ok ⟨0x1003, 5, 0x1008⟩) :=
  ⟨by decide, rfl⟩

/-- C13, amended: for an offset `>= sh_size`, `rela_insn` returns an
instruction only if that instruction starts before the section end and its
decoded length runs past it. It returns none when the offset is at or after an
instruction boundary lying at or past the section end, and so for every offset
`>= sh_size` when no decoded instruction runs past the section end; it then
fails with RelocationNotFound when all scanned instructions decode (given
`sh_size` decode steps of fuel). (Addresses are taken not to wrap around
2^64.) -/
theorem rela_insn_outside_section (dec : Nat → Nat) (fuel : Nat) (sec : Section) (r : rela)
    (i : insn) (hw : no_wrap dec sec) (hoff : r.offset < U64)
    (hout : sec.sh_size ≤ r.offset) :
    (∀ res, rela_insn dec fuel sec r i = some (.ok res) →
        res.kaddr < sec.d_buf + sec.sh_size ∧ sec.d_buf + sec.sh_size < res.next_byte)
    ∧ (∀ n, sec.sh_size ≤ bnd dec sec.d_buf n → bnd dec sec.d_buf n ≤ r.offset →
        ∀ res, rela_insn dec fuel sec r i ≠ some (.ok res))
    ∧ ((∀ k, bnd dec sec.d_buf k < sec.sh_size → bnd dec sec.d_buf (k + 1) ≤ sec.sh_size) →
        (∀ res, rela_insn dec fuel sec r i ≠ some (.ok res))
        ∧ (sec.d_buf + sec.sh_size < U64 → 0 < sec.sh_size → all_decodable dec sec →
            sec.sh_size ≤ fuel →
            rela_insn dec fuel sec r i
              = some (.error (.RelocationNotFound sec.name r.offset)))) := by
  refine ⟨?_, ?_, ?_⟩
  · intro res h
    obtain ⟨k, e1, h1, -, -, h4, -⟩ := rela_insn_ok_form dec fuel sec r i res hw hoff h
    subst e1
    dsimp only
    omega
  · intro n hn1 hn2 res h
    obtain ⟨k, -, h1, -, -, h4, -⟩ := rela_insn_ok_form dec fuel sec r i res hw hoff h
    have hkn : k + 1 ≤ n := by
      by_contra hc
      have := bnd_mono dec sec.d_buf n k (by omega)
      omega
    have := bnd_mono dec sec.d_buf (k + 1) n hkn
    omega
  · intro htile
    refine ⟨?_, ?_⟩
    · intro res h
      obtain ⟨k, -, h1, -, -, h4, -⟩ := rela_insn_ok_form dec fuel sec r i res hw hoff h
      have := htile k h1
      omega
    · intro hbuf hpos hv hfuel
      apply rela_insn_none_contains dec fuel sec r i hbuf hpos hw hoff hv hfuel
      intro k hk hc
      have := htile k hk
      omega

/-- Instance of the amended C13 on the scenario section, whose instructions
end at the section end: offset 8 is not found. -/
theorem rela_insn_outside_section_witness :
    rela_insn dec35 8 sec35 ⟨R_X86_64_PC32, 8, -4⟩ ⟨0, 0, 0⟩
      = some (.error (.RelocationNotFound ".text" 8)) :=
  ((rela_insn_outside_section dec35 8 sec35 ⟨R_X86_64_PC32, 8, -4⟩ ⟨0, 0, 0⟩
      (no_wrap_dec35 sec35 (by decide)) (by decide) (by decide)).2.2
      (by intro k hk; rcases bnd_dec35_lt k hk with rfl | rfl <;> decide)).2
    (by decide) (by decide) (all_decodable_dec35 sec35 rfl (by decide)) (by decide)

/-! ## The correction term -/

theorem toLong_sub_sub (n d o : Int) :
    toLong (toLong (toLong n - toLong d) - o) = toLong (n - d - o) := by
  unfold toLong; omega

/-- The local `add_off` on the PC-relative path. -/
theorem add_off_of_located (dec : Nat → Nat) (fuel : Nat) (garbage : insn)
    (uelf : upatch_elf) (relasec : RelaSection) (r : rela) (res : insn)
    (harch : uelf.arch = .X86_64) (htext : is_text_section relasec.base = true)
    (htype : r.type = R_X86_64_PC32 ∨ r.type = R_X86_64_PLT32)
    (hloc : rela_insn dec fuel relasec.base r garbage = some (.ok res)) :
    add_off dec fuel garbage uelf relasec r
      = some (.ok (toLong ((res.next_byte : Int) - (relasec.base.d_buf : Int)
          - (r.offset : Int)))) := by
  have hn : ¬ ((!is_text_section relasec.base) = true ∨ r.type = R_X86_64_64 ∨
      r.type = R_X86_64_32 ∨ r.type = R_X86_64_32S) := by
    rcases htype with h | h <;>
      simp [htext, h, R_X86_64_PC32, R_X86_64_PLT32, R_X86_64_64, R_X86_64_32, R_X86_64_32S]
  simp only [add_off, harch, if_neg hn, if_pos htype, hloc, toLong_sub_sub]

/-- C14 as stated fails: in the scenario (section at 0x1000, 5-byte instruction
at `[3, 8)`, relocation field at offset 4) the correction term is 4, the
distance from the first byte of the relocation field to the end of the
instruction, and not `0x1008 - (0x1000 + 4 + 4) = 0`. -/
theorem correction_from_field_end_counterexample :
    rela_insn dec35 8 sec35 ⟨R_X86_64_PC32, 4, -4⟩ ⟨0, 0, 0⟩ = some (.ok ⟨0x1003, 5, 0x1008⟩)
    ∧ add_off dec35 8 ⟨0, 0, 0⟩ ⟨.X86_64⟩ ⟨".rela.text", sec35⟩ ⟨R_X86_64_PC32, 4, -4⟩
        = some (.ok 4)
    ∧ (0x1008 : Int) - (0x1000 + 4 + 4) = 0
    ∧ add_off dec35 8 ⟨0, 0, 0⟩ ⟨.X86_64⟩ ⟨".rela.text", sec35⟩ ⟨R_X86_64_PC32, 4, -4⟩
        ≠ some (.ok ((0x1008 : Int) - (0x1000 + 4 + 4))) := by
  refine ⟨rfl, rfl, by decide, ?_⟩
  intro h
  have h2 : add_off dec35 8 ⟨0, 0, 0⟩ ⟨.X86_64⟩ ⟨".rela.text", sec35⟩ ⟨R_X86_64_PC32, 4, -4⟩
      = some (.ok 4) := rfl
  rw [h2] at h
  have h3 : (4 : Int) = 0x1008 - (0x1000 + 4 + 4) := Except.ok.inj (Option.some.inj h)
  revert h3
  decide

/-- C14, amended: for a relocation of type R_X86_64_PC32 or R_X86_64_PLT32 in
an X86_64 text section, resolved to the instruction `res`, the correction term
added to the addend is exactly the number of bytes between the start of the
relocation field (`section_start + offset`) and the end of its enclosing
instruction, `next_byte - (section_start + offset)`, a positive number.
(Addresses are taken not to wrap around 2^64 and the instruction length to fit
a `long`.) -/
theorem add_off_pc_relative (dec : Nat → Nat) (fuel : Nat) (garbage : insn)
    (uelf : upatch_elf) (relasec : RelaSection) (r : rela) (res : insn)
    (harch : uelf.arch = .X86_64) (htext : is_text_section relasec.base = true)
    (htype : r.type = R_X86_64_PC32 ∨ r.type = R_X86_64_PLT32)
    (hw : no_wrap dec relasec.base) (hoff : r.offset < U64)
    (hloc : rela_insn dec fuel relasec.base r garbage = some (.ok res))
    (hlen : res.length < 2 ^ 63) :
    add_off dec fuel garbage uelf relasec r
      = some (.ok ((res.next_byte : Int) - ((relasec.base.d_buf : Int) + (r.offset : Int))))
    ∧ add_off dec fuel garbage uelf relasec r
      = some (.ok ((res.next_byte - (relasec.base.d_buf + r.offset) : Nat) : Int))
    ∧ relasec.base.d_buf + r.offset < res.next_byte
    ∧ rela_target_offset dec fuel garbage uelf relasec r
      = some (.ok (toLong (r.addend
          + ((res.next_byte : Int) - ((relasec.base.d_buf : Int) + (r.offset : Int)))))) := by
  obtain ⟨k, e1, h1, h2, h3, h4, -⟩ :=
    rela_insn_ok_form dec fuel relasec.base r garbage res hw hoff hloc
  have hb1 : bnd dec relasec.base.d_buf (k + 1)
      = bnd dec relasec.base.d_buf k
        + dec (relasec.base.d_buf + bnd dec relasec.base.d_buf k) := rfl
  have hA := add_off_of_located dec fuel garbage uelf relasec r res harch htext htype hloc
  have hnb : res.next_byte = relasec.base.d_buf + bnd dec relasec.base.d_buf (k + 1) := by
    rw [e1]
  have hl : res.length = dec (relasec.base.d_buf + bnd dec relasec.base.d_buf k) := by
    rw [e1]
  have hfit : toLong ((res.next_byte : Int) - (relasec.base.d_buf : Int) - (r.offset : Int))
      = (res.next_byte : Int) - ((relasec.base.d_buf : Int) + (r.offset : Int)) := by
    rw [toLong_of_fits] <;> omega
  have hkey : add_off dec fuel garbage uelf relasec r
      = some (.ok ((res.next_byte : Int) - ((relasec.base.d_buf : Int) + (r.offset : Int)))) := by
    rw [hA, hfit]
  have hlt : relasec.base.d_buf + r.offset < res.next_byte := by omega
  refine ⟨hkey, ?_, hlt, ?_⟩
  · rw [hkey]
    congr 2
    omega
  · simp only [rela_target_offset, hkey]

/-- Scenario of the amended C14: the correction term is `0x1008 - 0x1004 = 4`. -/
theorem add_off_pc_relative_witness :
    add_off dec35 8 ⟨0, 0, 0⟩ ⟨.X86_64⟩ ⟨".rela.text", sec35⟩ ⟨R_X86_64_PC32, 4, -4⟩
      = some (.ok ((0x1008 : Int) - (0x1000 + 4))) :=
  (add_off_pc_relative dec35 8 ⟨0, 0, 0⟩ ⟨.X86_64⟩ ⟨".rela.text", sec35⟩
    ⟨R_X86_64_PC32, 4, -4⟩ ⟨0x1003, 5, 0x1008⟩ rfl rfl (Or.inl rfl)
    (no_wrap_dec35 sec35 (by decide)) (by decide) rfl (by decide)).1

/-- C16: whenever `rela_target_offset` succeeds with `v` on a relocation of type
R_X86_64_PC32 or R_X86_64_PLT32 in an X86_64 text section, `res` being the
enclosing instruction `rela_insn` returns, the correction term `v - addend` is
at least 1 and at most `res.length`; it is `res.length` exactly when the
offset is the first byte of the instruction and 1 exactly when it is its last
byte. (Addresses are taken not to wrap around 2^64, and `addend` and
`addend + res.length` to fit a `long`.) -/
theorem rela_target_offset_correction_bounds (dec : Nat → Nat) (fuel : Nat) (garbage : insn)
    (uelf : upatch_elf) (relasec : RelaSection) (r : rela) (res : insn) (v : Int)
    (harch : uelf.arch = .X86_64) (htext : is_text_section relasec.base = true)
    (htype : r.type = R_X86_64_PC32 ∨ r.type = R_X86_64_PLT32)
    (hw : no_wrap dec relasec.base) (hoff : r.offset < U64)
    (hlo : -2 ^ 63 ≤ r.addend) (hhi : r.addend + res.length < 2 ^ 63)
    (hloc : rela_insn dec fuel relasec.base r garbage = some (.ok res))
    (hv : rela_target_offset dec fuel garbage uelf relasec r = some (.ok v)) :
    1 ≤ v - r.addend ∧ v - r.addend ≤ res.length
    ∧ (v - r.addend = res.length ↔ relasec.base.d_buf + r.offset = res.kaddr)
    ∧ (v - r.addend = 1 ↔ relasec.base.d_buf + r.offset + 1 = res.next_byte) := by
  obtain ⟨k, e1, h1, h2, h3, h4, -⟩ :=
    rela_insn_ok_form dec fuel relasec.base r garbage res hw hoff hloc
  have hb1 : bnd dec relasec.base.d_buf (k + 1)
      = bnd dec relasec.base.d_buf k
        + dec (relasec.base.d_buf + bnd dec relasec.base.d_buf k) := rfl
  have hA := add_off_of_located dec fuel garbage uelf relasec r res harch htext htype hloc
  have hnb : res.next_byte = relasec.base.d_buf + bnd dec relasec.base.d_buf (k + 1) := by
    rw [e1]
  have hka : res.kaddr = relasec.base.d_buf + bnd dec relasec.base.d_buf k := by
    rw [e1]
  have hl : res.length = dec (relasec.base.d_buf + bnd dec relasec.base.d_buf k) := by
    rw [e1]
  have hR : rela_target_offset dec fuel garbage uelf relasec r
      = some (.ok (toLong (r.addend + toLong ((res.next_byte : Int)
          - (relasec.base.d_buf : Int) - (r.offset : Int))))) := by
    simp only [rela_target_offset, hA]
  have hfit1 : toLong (r.addend + toLong ((res.next_byte : Int)
        - (relasec.base.d_buf : Int) - (r.offset : Int)))
      = toLong (r.addend
          + ((res.next_byte : Int) - (relasec.base.d_buf : Int) - (r.offset : Int))) := by
    unfold toLong; omega
  have hfit2 : toLong (r.addend
      + ((res.next_byte : Int) - (relasec.base.d_buf : Int) - (r.offset : Int)))
      = r.addend + ((res.next_byte : Int) - (relasec.base.d_buf : Int) - (r.offset : Int)) := by
    rw [toLong_of_fits] <;> omega
  rw [hR, hfit1, hfit2] at hv
  have hv2 : r.addend + ((res.next_byte : Int) - (relasec.base.d_buf : Int) - (r.offset : Int))
      = v := Except.ok.inj (Option.some.inj hv)
  refine ⟨by omega, by omega, ⟨fun h => by omega, fun h => by omega⟩,
    ⟨fun h => by omega, fun h => by omega⟩⟩

/-- Scenario of C16: offset 4 is the second byte of the 5-byte instruction at
`[3, 8)`; the correction term `0 - (-4) = 4` lies between 1 and 5. -/
theorem rela_target_offset_correction_bounds_witness :
    (1 : Int) ≤ 0 - (-4) ∧ (0 : Int) - (-4) ≤ ((5 : Nat) : Int) :=
  ⟨(rela_target_offset_correction_bounds dec35 8 ⟨0, 0, 0⟩ ⟨.X86_64⟩ ⟨".rela.text", sec35⟩
      ⟨R_X86_64_PC32, 4, -4⟩ ⟨0x1003, 5, 0x1008⟩ 0 rfl rfl (Or.inl rfl)
      (no_wrap_dec35 sec35 (by decide)) (by decide) (by decide) (by decide) rfl (by rfl)).1,
   (rela_target_offset_correction_bounds dec35 8 ⟨0, 0, 0⟩ ⟨.X86_64⟩ ⟨".rela.text", sec35⟩
      ⟨R_X86_64_PC32, 4, -4⟩ ⟨0x1003, 5, 0x1008⟩ 0 rfl rfl (Or.inl rfl)
      (no_wrap_dec35 sec35 (by decide)) (by decide) (by decide) (by decide) rfl (by rfl)).2.1⟩

/-! ## Moving the section -/

/-- The scan loops over two copies of a section, at `s1` and at `s2`, run in
step. -/
theorem rela_insn_loop_moved (dec1 dec2 : Nat → Nat) (sec1 sec2 : Section) (r : rela)
    (s1 s2 size : Nat) (hname : sec1.name = sec2.name)
    (hw1 : ∀ b, b < size → s1 + b + dec1 (s1 + b) < U64)
    (hw2 : ∀ b, b < size → s2 + b + dec2 (s2 + b) < U64)
    (hoff : r.offset < U64)
    (hsame : ∀ b, b < size → dec1 (s1 + b) = dec2 (s2 + b)) :
    ∀ (fuel b : Nat) (i1 i2 : insn),
      relative_outcome s1
          (rela_insn_loop dec1 sec1 r (s1 + size) ((s1 + r.offset) % U64) fuel (s1 + b) i1)
        = relative_outcome s2
          (rela_insn_loop dec2 sec2 r (s2 + size) ((s2 + r.offset) % U64) fuel (s2 + b) i2) := by
  intro fuel
  induction fuel with
  | zero =>
    intro b i1 i2
    by_cases hb : b < size
    · have h1 : s1 + b < s1 + size := by omega
      have h2 : s2 + b < s2 + size := by omega
      simp [rela_insn_loop, h1, h2, relative_outcome]
    · rw [rela_insn_loop_end dec1 sec1 r _ _ 0 _ i1 (by omega),
        rela_insn_loop_end dec2 sec2 r _ _ 0 _ i2 (by omega), hname]
      rfl
  | succ n ih =>
    intro b i1 i2
    by_cases hb : b < size
    · rw [rela_insn_loop_step dec1 sec1 r _ _ n _ i1 (by omega) (hw1 b hb),
        rela_insn_loop_step dec2 sec2 r _ _ n _ i2 (by omega) (hw2 b hb), ← hsame b hb]
      by_cases h0 : dec1 (s1 + b) = 0
      · simp only [h0, if_true, relative_outcome, relative_error, hname]
        congr 3
        omega
      · have c1 := rela_addr_in_range s1 r.offset b (dec1 (s1 + b)) hoff (hw1 b hb)
        have c2 := rela_addr_in_range s2 r.offset b (dec1 (s1 + b)) hoff
          (by rw [hsame b hb]; exact hw2 b hb)
        by_cases hc : b ≤ r.offset ∧ r.offset < b + dec1 (s1 + b)
        · simp only [h0, if_false, c1.2 hc, c2.2 hc, and_self, if_true, relative_outcome,
            relative_insn]
          congr 3
          · omega
          · omega
        · have n1 : ¬ (s1 + b ≤ (s1 + r.offset) % U64 ∧
              (s1 + r.offset) % U64 < s1 + b + dec1 (s1 + b)) := fun h => hc (c1.1 h)
          have n2 : ¬ (s2 + b ≤ (s2 + r.offset) % U64 ∧
              (s2 + r.offset) % U64 < s2 + b + dec1 (s1 + b)) := fun h => hc (c2.1 h)
          simp only [h0, if_false, n1, n2]
          have e1 : s1 + b + dec1 (s1 + b) = s1 + (b + dec1 (s1 + b)) := by omega
          have e2 : s2 + b + dec1 (s1 + b) = s2 + (b + dec1 (s1 + b)) := by omega
          rw [e1, e2]
          exact ih _ i1 i2
    · rw [rela_insn_loop_end dec1 sec1 r _ _ (n + 1) _ i1 (by omega),
        rela_insn_loop_end dec2 sec2 r _ _ (n + 1) _ i2 (by omega), hname]
      rfl

/-- The outcome of `rela_insn`, seen from the section, is the same for two
copies of the section. -/
theorem rela_insn_moved (dec1 dec2 : Nat → Nat) (fuel : Nat) (sec : Section) (start2 : Nat)
    (r : rela) (i1 i2 : insn)
    (hbuf1 : sec.d_buf + sec.sh_size < U64) (hbuf2 : start2 + sec.sh_size < U64)
    (hw1 : no_wrap dec1 sec) (hw2 : no_wrap dec2 ⟨sec.name, start2, sec.sh_size, sec.text⟩)
    (hoff : r.offset < U64)
    (hsame : ∀ b, b < sec.sh_size → dec1 (sec.d_buf + b) = dec2 (start2 + b)) :
    relative_outcome sec.d_buf (rela_insn dec1 fuel sec r i1)
      = relative_outcome start2
          (rela_insn dec2 fuel ⟨sec.name, start2, sec.sh_size, sec.text⟩ r i2) := by
  by_cases hpos : 0 < sec.sh_size
  · rw [rela_insn_of_size dec1 fuel sec r i1 hbuf1 hpos,
      rela_insn_of_size dec2 fuel ⟨sec.name, start2, sec.sh_size, sec.text⟩ r i2 hbuf2 hpos]
    have h := rela_insn_loop_moved dec1 dec2 sec ⟨sec.name, start2, sec.sh_size, sec.text⟩ r
      sec.d_buf start2 sec.sh_size rfl
      (fun b hb => hw1 _ (Nat.le_add_right _ _) (by omega))
      (fun b hb => hw2 _ (Nat.le_add_right _ _) (by dsimp only; omega))
      hoff hsame fuel 0 i1 i2
    simpa using h
  · have hz : sec.sh_size = 0 := by omega
    have m1 : (sec.d_buf + sec.sh_size) % U64 ≤ sec.d_buf := by
      rw [hz, Nat.add_zero]; exact Nat.mod_le _ _
    have m2 : (start2 + sec.sh_size) % U64 ≤ start2 := by
      rw [hz, Nat.add_zero]; exact Nat.mod_le _ _
    simp only [rela_insn, m1, m2, if_true]
    rfl

/-- The outcome of `rela_target_offset`, seen from the section, is the same for
two copies of the base section. -/
theorem rela_target_offset_moved (dec1 dec2 : Nat → Nat) (fuel : Nat) (sec : Section)
    (start2 : Nat) (r : rela) (g1 g2 : insn) (uelf : upatch_elf) (name : String)
    (hbuf1 : sec.d_buf + sec.sh_size < U64) (hbuf2 : start2 + sec.sh_size < U64)
    (hw1 : no_wrap dec1 sec) (hw2 : no_wrap dec2 ⟨sec.name, start2, sec.sh_size, sec.text⟩)
    (hoff : r.offset < U64)
    (hsame : ∀ b, b < sec.sh_size → dec1 (sec.d_buf + b) = dec2 (start2 + b)) :
    relative_result sec.d_buf (rela_target_offset dec1 fuel g1 uelf ⟨name, sec⟩ r)
      = relative_result start2 (rela_target_offset dec2 fuel g2 uelf
          ⟨name, ⟨sec.name, start2, sec.sh_size, sec.text⟩⟩ r) := by
  have hmov := rela_insn_moved dec1 dec2 fuel sec start2 r g1 g2 hbuf1 hbuf2 hw1 hw2 hoff hsame
  simp only [rela_target_offset, add_off, is_text_section]
  cases uelf.arch with
  | other tag => rfl
  | X86_64 =>
    dsimp only
    by_cases hA : (!sec.text) = true ∨ r.type = R_X86_64_64 ∨ r.type = R_X86_64_32 ∨
        r.type = R_X86_64_32S
    · simp only [if_pos hA]; rfl
    · simp only [if_neg hA]
      by_cases hP : r.type = R_X86_64_PC32 ∨ r.type = R_X86_64_PLT32
      · simp only [if_pos hP]
        cases h1 : rela_insn dec1 fuel sec r g1 with
        | none =>
          cases h2 : rela_insn dec2 fuel ⟨sec.name, start2, sec.sh_size, sec.text⟩ r g2 with
          | none => rfl
          | some o2 =>
            rw [h1, h2] at hmov
            cases o2 <;> simp [relative_outcome] at hmov
        | some o1 =>
          cases h2 : rela_insn dec2 fuel ⟨sec.name, start2, sec.sh_size, sec.text⟩ r g2 with
          | none =>
            rw [h1, h2] at hmov
            cases o1 <;> simp [relative_outcome] at hmov
          | some o2 =>
            rw [h1, h2] at hmov
            cases o1 with
            | error e1 =>
              cases o2 with
              | error e2 =>
                simp only [relative_outcome, Option.some.injEq, Except.error.injEq] at hmov
                simp only [relative_result, hmov]
              | ok r2 => simp [relative_outcome] at hmov
            | ok r1 =>
              cases o2 with
              | error e2 => simp [relative_outcome] at hmov
              | ok r2 =>
                simp only [relative_outcome, relative_insn, Option.some.injEq, Except.ok.injEq,
                  insn.mk.injEq] at hmov
                obtain ⟨k1, f1, -⟩ := rela_insn_ok_form dec1 fuel sec r g1 r1 hw1 hoff h1
                obtain ⟨k2, f2, -⟩ := rela_insn_ok_form dec2 fuel
                  ⟨sec.name, start2, sec.sh_size, sec.text⟩ r g2 r2 hw2 hoff h2
                have n1 : r1.next_byte = sec.d_buf + bnd dec1 sec.d_buf (k1 + 1) := by rw [f1]
                have n2 : r2.next_byte = start2 + bnd dec2 start2 (k2 + 1) := by rw [f2]
                simp only [relative_result, toLong_correction, Option.some.injEq,
                  Except.ok.injEq]
                congr 2
                omega
      · simp only [if_neg hP]; rfl

theorem no_wrap_dec35_at (start : Nat) (sec : Section) (h : sec.d_buf + sec.sh_size + 8 < U64) :
    no_wrap (dec35_at start) sec := by
  intro a _ h2
  simp only [U64] at *
  simp only [dec35_at, dec35]
  split_ifs <;> omega

theorem dec35_at_same (start b : Nat) : dec35 (0x1000 + b) = dec35_at start (start + b) := by
  simp only [dec35_at]
  congr 1
  omega

/-- C17: the corrected addend does not depend on where the section buffer is.
For two copies of a section (same name, size and text attribute) at the start
addresses `sec.d_buf` and `start2`, with decoders reporting the same length at
the same offset of either copy, and the same relocation: `rela_target_offset`
returns the same value or the same error (for UndecodableInstruction, at the
same offset), and `rela_insn` returns instructions with the same length and
the same address and next byte relative to the section start. (Both copies and
their decoded instructions are taken not to wrap around 2^64.) -/
theorem rela_target_offset_position_independent (dec1 dec2 : Nat → Nat) (fuel : Nat)
    (sec : Section) (start2 : Nat) (r : rela) (i1 i2 g1 g2 : insn) (uelf : upatch_elf)
    (name : String)
    (hbuf1 : sec.d_buf + sec.sh_size < U64) (hbuf2 : start2 + sec.sh_size < U64)
    (hw1 : no_wrap dec1 sec) (hw2 : no_wrap dec2 ⟨sec.name, start2, sec.sh_size, sec.text⟩)
    (hoff : r.offset < U64)
    (hsame : ∀ b, b < sec.sh_size → dec1 (sec.d_buf + b) = dec2 (start2 + b)) :
    relative_result sec.d_buf (rela_target_offset dec1 fuel g1 uelf ⟨name, sec⟩ r)
      = relative_result start2 (rela_target_offset dec2 fuel g2 uelf
          ⟨name, ⟨sec.name, start2, sec.sh_size, sec.text⟩⟩ r)
    ∧ (∀ v, rela_target_offset dec1 fuel g1 uelf ⟨name, sec⟩ r = some (.ok v)
        ↔ rela_target_offset dec2 fuel g2 uelf
            ⟨name, ⟨sec.name, start2, sec.sh_size, sec.text⟩⟩ r = some (.ok v))
    ∧ relative_outcome sec.d_buf (rela_insn dec1 fuel sec r i1)
      = relative_outcome start2
          (rela_insn dec2 fuel ⟨sec.name, start2, sec.sh_size, sec.text⟩ r i2)
    ∧ (∀ res1, rela_insn dec1 fuel sec r i1 = some (.ok res1) →
        ∃ res2, rela_insn dec2 fuel ⟨sec.name, start2, sec.sh_size, sec.text⟩ r i2
            = some (.ok res2)
          ∧ res2.length = res1.length
          ∧ res2.kaddr - start2 = res1.kaddr - sec.d_buf
          ∧ res2.next_byte - start2 = res1.next_byte - sec.d_buf) := by
  have hT := rela_target_offset_moved dec1 dec2 fuel sec start2 r g1 g2 uelf name
    hbuf1 hbuf2 hw1 hw2 hoff hsame
  have hI := rela_insn_moved dec1 dec2 fuel sec start2 r i1 i2 hbuf1 hbuf2 hw1 hw2 hoff hsame
  refine ⟨hT, ?_, hI, ?_⟩
  · intro v
    cases h1 : rela_target_offset dec1 fuel g1 uelf ⟨name, sec⟩ r with
    | none =>
      cases h2 : rela_target_offset dec2 fuel g2 uelf
          ⟨name, ⟨sec.name, start2, sec.sh_size, sec.text⟩⟩ r with
      | none => simp
      | some o2 => rw [h1, h2] at hT; cases o2 <;> simp [relative_result] at hT
    | some o1 =>
      cases h2 : rela_target_offset dec2 fuel g2 uelf
          ⟨name, ⟨sec.name, start2, sec.sh_size, sec.text⟩⟩ r with
      | none => rw [h1, h2] at hT; cases o1 <;> simp [relative_result] at hT
      | some o2 =>
        rw [h1, h2] at hT
        cases o1 <;> cases o2 <;> simp [relative_result] at hT ⊢
        exact ⟨fun h => by rw [← hT, h], fun h => by rw [hT, h]⟩
  · intro res1 h1
    rw [h1] at hI
    cases h2 : rela_insn dec2 fuel ⟨sec.name, start2, sec.sh_size, sec.text⟩ r i2 with
    | none => rw [h2] at hI; simp [relative_outcome] at hI
    | some o2 =>
      rw [h2] at hI
      cases o2 with
      | error e2 => simp [relative_outcome] at hI
      | ok res2 =>
        simp only [relative_outcome, relative_insn, Option.some.injEq, Except.ok.injEq,
          insn.mk.injEq] at hI
        exact ⟨res2, rfl, hI.2.1.symm, hI.1.symm, hI.2.2.symm⟩

/-- Instance of C17: the scenario section copied to 0x2000 gives the corrected
addend 0 as well. -/
theorem rela_target_offset_position_independent_witness :
    rela_target_offset (dec35_at 0x2000) 8 ⟨0, 0, 0⟩ ⟨.X86_64⟩
      ⟨".rela.text", ⟨".text", 0x2000, 8, true⟩⟩ ⟨R_X86_64_PC32, 4, -4⟩ = some (.ok 0) :=
  ((rela_target_offset_position_independent dec35 (dec35_at 0x2000) 8 sec35 0x2000
      ⟨R_X86_64_PC32, 4, -4⟩ ⟨0, 0, 0⟩ ⟨0, 0, 0⟩ ⟨0, 0, 0⟩ ⟨0, 0, 0⟩ ⟨.X86_64⟩ ".rela.text"
      (by decide) (by decide) (no_wrap_dec35 sec35 (by decide))
      (no_wrap_dec35_at 0x2000 _ (by decide)) (by decide)
      (fun b _ => dec35_at_same 0x2000 b)).2.1 0).1 (by rfl)

end Upatch
